import Mathlib

/-!
Verification of the OCR benchmarking backend
(`ocr-benchmark/backend/app`): shallow embedding of the markdown
post-processing layer (`adapters/postprocess_markdown.py`), the LLM text
cleanup functions (`gemini3_adapter.py`, `gemini3pro_adapter.py`,
`glmocr_adapter.py`), the token extraction of the EasyOCR / PaddleOCR
adapters, the billing module (`billing.py`) and the benchmark dispatcher
(`main.py`), together with theorems settling the specification claims.

Python `float` coordinates are modelled as `ℚ` (all arithmetic performed
by the embedded code is exact on the inputs appearing here), byte strings
and I/O are out of scope, and adapter invocations are modelled as
externally supplied outcomes (`Except`), since network and model
behaviour is outside the program text.
-/

set_option maxRecDepth 10000

/-! ## Python string primitives

Character-level models of the Python `str` operations used by the
sources.  Python `str.strip()` removes the 6 ASCII whitespace characters
(space, \t, \n, \r, \x0b, \x0c); `isalpha`/`\w` are modelled on their
ASCII behaviour, which is the only range exercised by this program. -/

namespace PyStr

def isPySpace (c : Char) : Bool :=
  c = ' ' || c = '\t' || c = '\n' || c = '\r' || c.toNat = 11 || c.toNat = 12

def isWordChar (c : Char) : Bool :=
  c.isAlphanum || c = '_'

/-- Python `s.strip()` on a character list. -/
def stripCh (cs : List Char) : List Char :=
  ((cs.dropWhile isPySpace).reverse.dropWhile isPySpace).reverse

/-- Python `s.rstrip()` on a character list. -/
def rstripCh (cs : List Char) : List Char :=
  (cs.reverse.dropWhile isPySpace).reverse

/-- Python `s.rstrip(":")` on a character list. -/
def rstripColonCh (cs : List Char) : List Char :=
  (cs.reverse.dropWhile (· = ':')).reverse

def pyStrip (s : String) : String := ⟨stripCh s.data⟩

def pyRstrip (s : String) : String := ⟨rstripCh s.data⟩

def pyRstripColon (s : String) : String := ⟨rstripColonCh s.data⟩

def pyLower (s : String) : String := ⟨s.data.map Char.toLower⟩

/-- Python `s.isalpha()`: nonempty and all alphabetic. -/
def pyIsAlpha (s : String) : Bool :=
  !s.data.isEmpty && s.data.all Char.isAlpha

/-- Python `sep.join(parts)` on character lists. -/
def joinSepCh (sep : List Char) : List (List Char) → List Char
  | [] => []
  | [x] => x
  | x :: y :: xs => x ++ sep ++ joinSepCh sep (y :: xs)

def pyJoin (sep : String) (parts : List String) : String :=
  ⟨joinSepCh sep.data (parts.map String.data)⟩

/-- Python `str.splitlines()` (here over `\n`, `\r` and `\r\n`,
exactly as Python treats the ASCII line boundaries): no trailing empty
line is produced for a trailing newline. -/
def splitlinesGo (acc : List Char) : List Char → List (List Char)
  | [] => if acc.isEmpty then [] else [acc.reverse]
  | '\r' :: '\n' :: rest => acc.reverse :: splitlinesGo [] rest
  | '\r' :: rest => acc.reverse :: splitlinesGo [] rest
  | '\n' :: rest => acc.reverse :: splitlinesGo [] rest
  | c :: rest => splitlinesGo (c :: acc) rest

def splitlinesCh (cs : List Char) : List (List Char) :=
  match cs with
  | [] => []
  | cs => splitlinesGo [] cs

def pySplitlines (s : String) : List String :=
  (splitlinesCh s.data).map (fun cs => ⟨cs⟩)

/-- Leftmost occurrence of the (nonempty) pattern `pat` inside `cs`:
returns the part before the match and the part after it. -/
def findSub (pat : List Char) : List Char → Option (List Char × List Char)
  | [] => none
  | c :: cs =>
    if pat.isPrefixOf (c :: cs) then some ([], (c :: cs).drop pat.length)
    else
      match findSub pat cs with
      | some (pre, post) => some (c :: pre, post)
      | none => none

/-- Python `s.split(pat)` for a nonempty pattern (fuelled; the fuel
`cs.length + 1` always suffices since every step consumes at least one
character of the remainder). -/
def splitSubF (pat : List Char) : Nat → List Char → List (List Char)
  | 0, cs => [cs]
  | fuel + 1, cs =>
    match findSub pat cs with
    | none => [cs]
    | some (pre, post) => pre :: splitSubF pat fuel post

def pySplit (s pat : String) : List String :=
  (splitSubF pat.data (s.data.length + 1) s.data).map (fun cs => ⟨cs⟩)

/-- Python `pat in s` (substring containment). -/
def pyContains (s pat : String) : Bool :=
  (findSub pat.data s.data).isSome

/-- Python `s.replace(old, new)` for a nonempty `old` (fuelled, as for
`splitSubF`). -/
def replaceSubF (pat new : List Char) : Nat → List Char → List Char
  | 0, cs => cs
  | fuel + 1, cs =>
    match findSub pat cs with
    | none => cs
    | some (pre, post) => pre ++ new ++ replaceSubF pat new fuel post

def pyReplace (s pat new : String) : String :=
  ⟨replaceSubF pat.data new.data (s.data.length + 1) s.data⟩

/-- Python `s.replace(old, new)` when `old` is a single character:
occurrence-by-occurrence replacement is then exactly character-wise. -/
def replaceChar (old : Char) (new : List Char) (cs : List Char) : List Char :=
  cs.flatMap (fun c => if c = old then new else [c])

/-- Python `max(parts, key=len)` (first element of maximal length) with
`""` for the empty list (Python raises there; all call sites guard). -/
def pyMaxByLen : List String → String
  | [] => ""
  | h :: t => t.foldl (fun best p => if best.length < p.length then p else best) h

end PyStr

open PyStr

/-! ## Data model: tokens

`postprocess_markdown.py` line 5: a token is `(text, x1, y1, x2, y2)`. -/

structure Token where
  text : String
  x1 : ℚ
  y1 : ℚ
  x2 : ℚ
  y2 : ℚ
deriving DecidableEq, Repr

/-- Vertical center `(y1 + y2) / 2` (`_cluster_rows`, line 29). -/
def ycQ (t : Token) : ℚ := (t.y1 + t.y2) / 2

/-- Horizontal center `(x1 + x2) / 2` (`_infer_columns`, line 68). -/
def xcQ (t : Token) : ℚ := (t.x1 + t.x2) / 2

/-- Ordering used by `items.sort(key=lambda z: z[0])`: Python's sort is
stable, and `List.insertionSort` with a `≤`-shaped relation is a stable
sort, so the embedded sort computes the same sequence. -/
def leYc (a b : Token) : Prop := ycQ a ≤ ycQ b

instance : DecidableRel leYc := fun a b => inferInstanceAs (Decidable (ycQ a ≤ ycQ b))

instance : IsTotal Token leYc := ⟨fun a b => le_total (ycQ a) (ycQ b)⟩

instance : IsTrans Token leYc := ⟨fun _ _ _ hab hbc => le_trans hab hbc⟩

/-- Ordering used by `r.sort(key=lambda z: z[1])` (x1, line 56). -/
def leX1 (a b : Token) : Prop := a.x1 ≤ b.x1

instance : DecidableRel leX1 := fun a b => inferInstanceAs (Decidable (a.x1 ≤ b.x1))

/-! ## `postprocess_markdown.py` -/

/-- `html_to_markdown` (lines 8–19): the three `re.sub` passes.  The
bold-tag matchers mirror `<\s*b\s*>` and `<\s*/\s*b\s*>` with
`re.IGNORECASE`; the generic pass mirrors `</?[^>]+>` (at least one
non-`>` character between the brackets, `/` being matched either by
`/?` or by `[^>]+`). -/
def matchBoldOpen : List Char → Option (List Char)
  | '<' :: rest =>
    match rest.dropWhile isPySpace with
    | c :: r2 =>
      if c = 'b' ∨ c = 'B' then
        match r2.dropWhile isPySpace with
        | '>' :: r3 => some r3
        | _ => none
      else none
    | [] => none
  | _ => none

def matchBoldClose : List Char → Option (List Char)
  | '<' :: rest =>
    match rest.dropWhile isPySpace with
    | '/' :: r2 =>
      match r2.dropWhile isPySpace with
      | c :: r3 =>
        if c = 'b' ∨ c = 'B' then
          match r3.dropWhile isPySpace with
          | '>' :: r4 => some r4
          | _ => none
        else none
      | [] => none
    | _ => none
  | _ => none

def matchAnyTag : List Char → Option (List Char)
  | '<' :: rest =>
    let body := rest.takeWhile (· ≠ '>')
    if body.isEmpty then none
    else
      match rest.drop body.length with
      | '>' :: r2 => some r2
      | _ => none
  | _ => none

/-- `re.sub` with a fixed matcher: scan left to right, replacing each
leftmost match (fuelled; `cs.length + 1` suffices since each step
consumes at least one input character). -/
def reSubF (m : List Char → Option (List Char)) (repl : List Char) :
    Nat → List Char → List Char
  | 0, cs => cs
  | _ + 1, [] => []
  | fuel + 1, c :: cs =>
    match m (c :: cs) with
    | some rest => repl ++ reSubF m repl fuel rest
    | none => c :: reSubF m repl fuel cs

def reSub (m : List Char → Option (List Char)) (repl : List Char)
    (cs : List Char) : List Char :=
  reSubF m repl (cs.length + 1) cs

def html_to_markdown (text : String) : String :=
  if text = "" then ""
  else
    let t1 := reSub matchBoldOpen ['*', '*'] text.data
    let t2 := reSub matchBoldClose ['*', '*'] t1
    let t3 := reSub matchAnyTag [] t2
    ⟨t3⟩

/-- The greedy walk of `_cluster_rows` (lines 38–52): `curY` is the
anchor (first token's center of the current row), `cur` the current row
in input order. -/
def clusterLoop (tol : ℚ) (curY : ℚ) (cur : List Token) : List Token → List (List Token)
  | [] => [cur]
  | t :: rest =>
    if |ycQ t - curY| ≤ tol then clusterLoop tol curY (cur ++ [t]) rest
    else cur :: clusterLoop tol (ycQ t) [t] rest

/-- `_cluster_rows` (lines 22–58): stable sort by vertical center,
greedy row walk, then stable sort of each row by `x1`. -/
def _cluster_rows (tokens : List Token) (y_tol : ℚ) : List (List Token) :=
  match List.insertionSort leYc tokens with
  | [] => []
  | t :: rest => (clusterLoop y_tol (ycQ t) [t] rest).map (List.insertionSort leX1)

/-- The running-average merge of `_infer_columns` (lines 74–79): `last`
is `cols[-1]`, the emitted list collects the finished column centers. -/
def colsLoop (last : ℚ) : List ℚ → List ℚ
  | [] => [last]
  | x :: rest =>
    if |x - last| > 35 then last :: colsLoop x rest
    else colsLoop ((last + x) / 2) rest

/-- `_infer_columns` (lines 61–82). -/
def _infer_columns (rows : List (List Token)) (max_cols : Nat) : List ℚ :=
  let xs := (rows.map (fun r => r.map xcQ)).flatten
  match List.insertionSort (· ≤ ·) xs with
  | [] => []
  | x :: rest => (colsLoop x rest).take max_cols

/-- Index of the column center closest to `xc`
(`min(range(len(col_centers)), key=...)`, line 93: first index of
minimal distance). -/
def argminDist (c0 : ℚ) (rest : List ℚ) (xc : ℚ) : Nat :=
  (rest.enumFrom 1).foldl
    (fun best p => if |p.2 - xc| < best.2 then (p.1, |p.2 - xc|) else best)
    (0, |c0 - xc|) |>.1

/-- One `cells[j] += ...` update (lines 94–97). -/
def updCell (cells : List String) (j : Nat) (txt : String) : List String :=
  if cells.getD j "" ≠ "" then cells.set j (cells.getD j "" ++ " " ++ txt)
  else cells.set j txt

/-- `_assign_to_columns` (lines 85–99). -/
def _assign_to_columns (row : List Token) (col_centers : List ℚ) : List String :=
  match col_centers with
  | [] => [pyStrip (pyJoin " " (row.map Token.text))]
  | c0 :: cs =>
    let cells := row.foldl
      (fun cells t => updCell cells (argminDist c0 cs (xcQ t)) t.text)
      (List.replicate (c0 :: cs).length "")
    cells.map pyStrip

/-- `max_used` (lines 116–120): largest `i + 1` over nonempty cells. -/
def maxUsedCols (grid : List (List String)) : Nat :=
  grid.foldl
    (fun m r => (r.enum).foldl
      (fun m' p => if p.2 ≠ "" then max m' (p.1 + 1) else m') m)
    0

/-- `md_escape` (lines 135–136): both `replace` calls are single
character patterns, so they are character-wise. -/
def md_escape (s : String) : String :=
  pyStrip ⟨replaceChar '|' ['\\', '|'] (replaceChar '\n' [' '] s.data)⟩

/-- One rendered table line `"| " + " | ".join(cells) + " |"`. -/
def mdLine (cells : List String) : String :=
  "| " ++ pyJoin " | " cells ++ " |"

/-- The assigned cell grid (`tokens_to_markdown_table` lines 111–113). -/
def tableGrid (tokens : List Token) : List (List String) :=
  (_cluster_rows tokens 10).map
    (fun r => _assign_to_columns r (_infer_columns (_cluster_rows tokens 10) 8))

/-- `max_used` of the grid (lines 116–120). -/
def tableMaxUsed (tokens : List Token) : Nat :=
  maxUsedCols (tableGrid tokens)

/-- The grid trimmed to the populated columns (line 124). -/
def tableGrid2 (tokens : List Token) : List (List String) :=
  (tableGrid tokens).map (fun r => r.take (tableMaxUsed tokens))

/-- The header row candidate `grid[0]` (line 127). -/
def tableHeader0 (tokens : List Token) : List String :=
  (tableGrid2 tokens).headD []

/-- Whether the first row is "mostly empty" (line 131). -/
def tableGeneric (tokens : List Token) : Prop :=
  (tableHeader0 tokens).countP (fun h => h ≠ "") <
    max 2 ((tableHeader0 tokens).length / 2)

instance (tokens : List Token) : Decidable (tableGeneric tokens) :=
  inferInstanceAs (Decidable (_ < _))

/-- The effective header (lines 127–133). -/
def tableHeader (tokens : List Token) : List String :=
  if tableGeneric tokens then
    (List.range (tableHeader0 tokens).length).map (fun i => "Col " ++ toString (i + 1))
  else tableHeader0 tokens

/-- The effective body rows (lines 128–133). -/
def tableBody (tokens : List Token) : List (List String) :=
  if tableGeneric tokens then tableGrid2 tokens else (tableGrid2 tokens).tail

/-- The rendered markdown lines (lines 138–142). -/
def tableMd (tokens : List Token) : List String :=
  mdLine ((tableHeader tokens).map md_escape)
    :: mdLine ((tableHeader tokens).map (fun _ => "---"))
    :: (tableBody tokens).map (fun r => mdLine (r.map md_escape))

/-- `tokens_to_markdown_table` (lines 102–144). -/
def tokens_to_markdown_table (tokens : List Token) : String :=
  if (_cluster_rows tokens 10).length < 2 then ""
  else if tableMaxUsed tokens ≤ 1 then ""
  else pyJoin "\n" (tableMd tokens)

/-- `normalize_to_markdown` (lines 147–160); `tokens` is `None` or a
list, and `if tokens:` is Python truthiness (`None` and `[]` fall
through). -/
def normalize_to_markdown (text : String) (tokens : Option (List Token)) : String :=
  if (tokens.getD []).isEmpty then html_to_markdown text
  else
    let table_md := tokens_to_markdown_table (tokens.getD [])
    if table_md = "" then html_to_markdown text
    else pyStrip (html_to_markdown text) ++ "\n\n" ++ pyStrip table_md

/-! ## Claims C2, C3: table acceptance and the concrete table scenario -/

/-- The claim-C3 scenario tokens from §8 of the spec. -/
def tableScenarioTokens : List Token :=
  [⟨"Name", 0, 0, 40, 10⟩, ⟨"Qty", 100, 0, 130, 10⟩,
   ⟨"Pen", 0, 20, 40, 30⟩, ⟨"3", 100, 20, 130, 30⟩]

/-- C2: `tokens_to_markdown_table` returns the empty string (not a
table) whenever row clustering yields fewer than 2 rows, or whenever the
maximum populated column index over the assigned grid is ≤ 1; in
particular a 1-row grid never produces a table. -/
theorem table_rejection (tokens : List Token) :
    ((_cluster_rows tokens 10).length < 2 → tokens_to_markdown_table tokens = "") ∧
    (maxUsedCols (tableGrid tokens) ≤ 1 → tokens_to_markdown_table tokens = "") ∧
    ((_cluster_rows tokens 10).length = 1 → tokens_to_markdown_table tokens = "") := by
  refine ⟨fun h => ?_, fun h => ?_, fun h => ?_⟩
  · rw [tokens_to_markdown_table, if_pos h]
  · rw [tokens_to_markdown_table]
    by_cases h2 : (_cluster_rows tokens 10).length < 2
    · rw [if_pos h2]
    · rw [if_neg h2, if_pos (show tableMaxUsed tokens ≤ 1 from h)]
  · rw [tokens_to_markdown_table, if_pos (by omega)]

/-- Witness for C2 at a concrete input: a single token clusters into
exactly one row, and the table is rejected. -/
theorem table_rejection_witness :
    (_cluster_rows [⟨"a", 0, 0, 2, 2⟩] 10).length = 1 ∧
    tokens_to_markdown_table [⟨"a", 0, 0, 2, 2⟩] = "" := by
  have h1 : (_cluster_rows [(⟨"a", 0, 0, 2, 2⟩ : Token)] 10).length = 1 := by
    norm_num [_cluster_rows, List.insertionSort, List.orderedInsert, clusterLoop]
  exact ⟨h1, (table_rejection [⟨"a", 0, 0, 2, 2⟩]).2.2 h1⟩

set_option maxHeartbeats 2000000 in
/-- C3: on the scenario tokens, clustering produces two rows
(`Name`,`Qty` and `Pen`,`3`), column inference produces the two centers
20 and 115, the assigned grid has header row `["Name","Qty"]` and body
row `["Pen","3"]`, and the rendered result is the 2-column markdown
table whose second line is the `---` separator row. -/
theorem table_scenario :
    _cluster_rows tableScenarioTokens 10 =
      [[⟨"Name", 0, 0, 40, 10⟩, ⟨"Qty", 100, 0, 130, 10⟩],
       [⟨"Pen", 0, 20, 40, 30⟩, ⟨"3", 100, 20, 130, 30⟩]] ∧
    _infer_columns (_cluster_rows tableScenarioTokens 10) 8 = [20, 115] ∧
    (_cluster_rows tableScenarioTokens 10).map
        (fun r => _assign_to_columns r
          (_infer_columns (_cluster_rows tableScenarioTokens 10) 8)) =
      [["Name", "Qty"], ["Pen", "3"]] ∧
    tokens_to_markdown_table tableScenarioTokens =
      "| Name | Qty |\n| --- | --- |\n| Pen | 3 |" := by
  refine ⟨?_, ?_, ?_, ?_⟩ <;>
    · norm_num [tableScenarioTokens, tokens_to_markdown_table, tableGrid,
        tableMaxUsed, tableGrid2, tableHeader0, tableGeneric, tableHeader,
        tableBody, tableMd, _cluster_rows,
        List.insertionSort, List.orderedInsert, leYc, leX1, ycQ, xcQ, clusterLoop,
        _infer_columns, colsLoop, _assign_to_columns, argminDist, updCell,
        maxUsedCols, md_escape, mdLine, pyJoin, joinSepCh, pyStrip,
        PyStr.stripCh, PyStr.replaceChar, PyStr.isPySpace]
      first
      | rfl
      | exact ⟨rfl, rfl⟩
      | skip

/-! ## Claim C6: markdown normalization with no tokens -/

/-- C6 (amended): with no (or an empty) token list,
`normalize_to_markdown` is exactly `html_to_markdown`, which converts
bold tags to `**` and strips other tags keeping their content; blank
lines are NOT collapsed. -/
theorem normalize_no_tokens :
    (∀ t : String, normalize_to_markdown t none = html_to_markdown t) ∧
    (∀ t : String, normalize_to_markdown t (some []) = html_to_markdown t) ∧
    normalize_to_markdown "<b>Ship To:</b> Acme" none = "**Ship To:** Acme" ∧
    html_to_markdown "<i>x</i>" = "x" ∧
    html_to_markdown "a\n\n\n\nb" = "a\n\n\n\nb" := by
  refine ⟨fun t => rfl, fun t => rfl, ?_, ?_, ?_⟩ <;> decide

/-- Counterexample for C6 as stated: `html_to_markdown` (hence
normalization without tokens) does not collapse runs of blank lines —
the input `"a\n\n\n\nb"` is returned unchanged, not as `"a\n\nb"`. -/
theorem normalize_no_collapse_counterexample :
    normalize_to_markdown "a\n\n\n\nb" none = "a\n\n\n\nb" ∧
    "a\n\n\n\nb" ≠ "a\n\nb" := by
  exact ⟨by decide, by decide⟩

/-! ## Engine-native values and normalized payloads

`PyVal` models the dynamically typed values flowing out of the OCR
libraries (numbers, strings, nested lists); `Payload` models the result
mapping an adapter returns and the dispatcher merges (`main.py`), with
`none` meaning "key absent".  The `meta`/`usage` sub-dicts of
`billing.py` are flattened into the fields they are read from. -/

inductive PyVal where
  | num (q : ℚ)
  | str (s : String)
  | list (l : List PyVal)

/-- A display line `{text, score, box}` (spec §3); `box` keeps the
engine-native geometry. -/
structure Line where
  text : String
  score : Option ℚ
  box : Option PyVal

structure Billing where
  btype : String
  basis : String
  currency : String
  model : String
  input_tokens : Option ℚ
  output_tokens : Option ℚ
  cost_usd : Option ℚ
  rate_usd_per_hour : Option ℚ
  file_size_bytes : Option Nat
  note : Option String

structure Payload where
  model : Option String := none
  filename : Option String := none
  mime_type : Option String := none
  text : Option String := none
  lines : Option (List Line) := none
  line_count : Option Nat := none
  backend_latency_ms : Option ℚ := none
  latency_ms : Option ℚ := none
  error : Option String := none
  raw : Option PyVal := none
  billing : Option Billing := none
  meta_latency_ms : Option ℚ := none
  meta_input_tokens : Option ℚ := none
  meta_output_tokens : Option ℚ := none
  usage_input_tokens : Option ℚ := none
  usage_prompt_tokens : Option ℚ := none
  usage_output_tokens : Option ℚ := none
  usage_completion_tokens : Option ℚ := none

/-! ## `billing.py` -/

/-- Python `a or b` over optional numbers: `None` and `0`/`0.0` are
falsy. -/
def pyOrQ : Option ℚ → Option ℚ → Option ℚ
  | some v, b => if v = 0 then b else some v
  | none, b => b

/-- Python `a or default` over optional strings: `None` and `""` are
falsy. -/
def pyOrS (o : Option String) (d : String) : String :=
  match o with
  | some s => if s = "" then d else s
  | none => d

/-- Python `round(x, 6)` (round half to even) on exact rationals. -/
def pyRound6 (q : ℚ) : ℚ :=
  let y := q * 1000000
  let f : ℤ := ⌊y⌋
  let r := y - f
  (if r < 1 / 2 then (f : ℚ)
   else if r > 1 / 2 then (f : ℚ) + 1
   else if f % 2 = 0 then (f : ℚ) else (f : ℚ) + 1) / 1000000

/-- A row of `TOKEN_PRICING_USD_PER_TOKEN` (billing.py lines 35–45);
the rates come from the environment and default to `0.0`. -/
structure PriceRow where
  inRate : ℚ
  outRate : ℚ

/-- `estimate_cost_time_usd` (billing.py lines 20–25). -/
def estimate_cost_time_usd (latency_ms : Option ℚ) (cpu_per_hour_usd : ℚ) : Option ℚ :=
  match latency_ms with
  | none => none
  | some lm => some (lm / 1000 / 3600 * cpu_per_hour_usd)

/-- `compute_cost_from_tokens` (billing.py lines 47–63): `None` when the
model has no pricing entry or both rates are zero; missing token counts
default to `0.0` (`_to_float(x) or 0.0`). -/
def compute_cost_from_tokens (pricing : String → Option PriceRow) (model : String)
    (input_tokens output_tokens : Option ℚ) : Option ℚ :=
  match pricing model with
  | none => none
  | some p =>
    let it := input_tokens.getD 0
    let ot := output_tokens.getD 0
    if p.inRate = 0 ∧ p.outRate = 0 then none
    else some (it * p.inRate + ot * p.outRate)

/-- The `or`-chain reading the latency out of a payload
(billing.py lines 87–91). -/
def billingLatency (payload : Payload) : Option ℚ :=
  pyOrQ payload.latency_ms (pyOrQ payload.backend_latency_ms payload.meta_latency_ms)

/-- The `or`-chain reading the input token count (lines 93–97). -/
def billingInputTokens (payload : Payload) : Option ℚ :=
  pyOrQ payload.meta_input_tokens
    (pyOrQ payload.usage_input_tokens payload.usage_prompt_tokens)

/-- The `or`-chain reading the output token count (lines 98–102). -/
def billingOutputTokens (payload : Payload) : Option ℚ :=
  pyOrQ payload.meta_output_tokens
    (pyOrQ payload.usage_output_tokens payload.usage_completion_tokens)

/-- `build_billing` (billing.py lines 65–130), parameterized by the
environment-derived pricing table and `CPU_PER_HOUR_USD`. -/
def build_billing (pricing : String → Option PriceRow) (cpu_per_hour_usd : ℚ)
    (model : Option String) (payload : Payload) (file_size_bytes : Option Nat) : Billing :=
  match payload.billing with
  | some b => b
  | none =>
    let m := match model with
      | some s => if s = "" then pyOrS payload.model "unknown" else s
      | none => pyOrS payload.model "unknown"
    let input_tokens := billingInputTokens payload
    let output_tokens := billingOutputTokens payload
    match compute_cost_from_tokens pricing m input_tokens output_tokens with
    | some token_cost =>
      { btype := "api_actual_tokens", basis := "tokens", currency := "USD", model := m,
        input_tokens := input_tokens, output_tokens := output_tokens,
        cost_usd := some (pyRound6 token_cost), rate_usd_per_hour := none,
        file_size_bytes := none, note := none }
    | none =>
      { btype := "estimated_time", basis := "latency_ms", currency := "USD", model := m,
        input_tokens := input_tokens, output_tokens := output_tokens,
        cost_usd := (estimate_cost_time_usd (billingLatency payload) cpu_per_hour_usd).map pyRound6,
        rate_usd_per_hour := some cpu_per_hour_usd,
        file_size_bytes := file_size_bytes,
        note := some "Estimated compute cost based on runtime (not provider billing)." }

/-! ## Claim C7: billing basis selection -/

/-- The token-based record `build_billing` produces (billing.py lines
107–115). -/
def tokenBilling (m : String) (payload : Payload) (cost : ℚ) : Billing :=
  { btype := "api_actual_tokens", basis := "tokens", currency := "USD", model := m,
    input_tokens := billingInputTokens payload,
    output_tokens := billingOutputTokens payload,
    cost_usd := some (pyRound6 cost), rate_usd_per_hour := none,
    file_size_bytes := none, note := none }

/-- The time-based record `build_billing` produces (lines 118–130). -/
def timeBilling (m : String) (payload : Payload) (cpu : ℚ) (fs : Option Nat) : Billing :=
  { btype := "estimated_time", basis := "latency_ms", currency := "USD", model := m,
    input_tokens := billingInputTokens payload,
    output_tokens := billingOutputTokens payload,
    cost_usd := (estimate_cost_time_usd (billingLatency payload) cpu).map pyRound6,
    rate_usd_per_hour := some cpu, file_size_bytes := fs,
    note := some "Estimated compute cost based on runtime (not provider billing)." }

/-- C7 (amended): with no pre-existing billing record, `build_billing`
returns a token-based record exactly when the engine has a pricing entry
with at least one non-zero per-token rate — regardless of whether the
payload exposes token usage (missing counts default to 0) — and
otherwise returns the time-based estimate
`cost = (latency_ms / 1000 / 3600) * hourly_rate`, rounded to 6 digits,
with `None` cost when no latency field is truthy. -/
theorem billing_basis (pricing : String → Option PriceRow) (cpu : ℚ)
    (m : String) (payload : Payload) (fs : Option Nat)
    (hb : payload.billing = none) (hm : m ≠ "") :
    ((build_billing pricing cpu (some m) payload fs).btype = "api_actual_tokens" ↔
      ∃ p, pricing m = some p ∧ (p.inRate ≠ 0 ∨ p.outRate ≠ 0)) ∧
    (∀ p, pricing m = some p → (p.inRate ≠ 0 ∨ p.outRate ≠ 0) →
      build_billing pricing cpu (some m) payload fs = tokenBilling m payload
        ((billingInputTokens payload).getD 0 * p.inRate +
         (billingOutputTokens payload).getD 0 * p.outRate)) ∧
    ((∀ p, pricing m = some p → p.inRate = 0 ∧ p.outRate = 0) →
      build_billing pricing cpu (some m) payload fs = timeBilling m payload cpu fs) := by
  have hne : ¬ (("estimated_time" : String) = "api_actual_tokens") := by decide
  have hbb : build_billing pricing cpu (some m) payload fs =
      match compute_cost_from_tokens pricing m (billingInputTokens payload)
          (billingOutputTokens payload) with
      | some token_cost => tokenBilling m payload token_cost
      | none => timeBilling m payload cpu fs := by
    rw [build_billing, hb]
    simp only [if_neg hm]
    rfl
  rcases hp : pricing m with _ | p
  · have hcost : compute_cost_from_tokens pricing m
        (billingInputTokens payload) (billingOutputTokens payload) = none := by
      rw [compute_cost_from_tokens, hp]
    rw [hcost] at hbb
    have hbE : build_billing pricing cpu (some m) payload fs =
        timeBilling m payload cpu fs := hbb
    refine ⟨?_, ?_, fun _ => hbE⟩
    · rw [hbE]
      exact ⟨fun h => absurd h hne, fun ⟨p', hp', _⟩ => Option.noConfusion hp'⟩
    · exact fun p' hp' _ => Option.noConfusion hp'
  · by_cases hz : p.inRate = 0 ∧ p.outRate = 0
    · have hcost : compute_cost_from_tokens pricing m
          (billingInputTokens payload) (billingOutputTokens payload) = none := by
        rw [compute_cost_from_tokens, hp]
        simp only [if_pos hz]
      rw [hcost] at hbb
      have hbE : build_billing pricing cpu (some m) payload fs =
          timeBilling m payload cpu fs := hbb
      refine ⟨?_, ?_, fun _ => hbE⟩
      · rw [hbE]
        refine ⟨fun h => absurd h hne, ?_⟩
        rintro ⟨p', hp', hnz⟩
        obtain rfl : p = p' := Option.some.inj hp'
        rcases hnz with h0 | h0
        · exact absurd hz.1 h0
        · exact absurd hz.2 h0
      · intro p' hp' hnz
        obtain rfl : p = p' := Option.some.inj hp'
        rcases hnz with h0 | h0
        · exact absurd hz.1 h0
        · exact absurd hz.2 h0
    · have hcost : compute_cost_from_tokens pricing m
          (billingInputTokens payload) (billingOutputTokens payload) =
          some ((billingInputTokens payload).getD 0 * p.inRate +
                (billingOutputTokens payload).getD 0 * p.outRate) := by
        rw [compute_cost_from_tokens, hp]
        simp only [if_neg hz]
      rw [hcost] at hbb
      have hbE : build_billing pricing cpu (some m) payload fs =
          tokenBilling m payload
            ((billingInputTokens payload).getD 0 * p.inRate +
             (billingOutputTokens payload).getD 0 * p.outRate) := hbb
      refine ⟨?_, ?_, ?_⟩
      · rw [hbE]
        refine ⟨fun _ => ⟨p, rfl, ?_⟩, fun _ => rfl⟩
        by_contra hc
        push_neg at hc
        exact hz ⟨hc.1, hc.2⟩
      · intro p' hp' _
        obtain rfl : p = p' := Option.some.inj hp'
        exact hbE
      · intro hall
        exact absurd (hall p rfl) hz

/-- Counterexample for C7 as stated: with a configured non-zero input
rate for `mistral` and a payload exposing NO token usage at all, the
code still returns a token-based record (of cost 0), whereas the claim
requires token-based pricing only when the engine exposes token usage,
and a time-based estimate here. -/
theorem billing_no_usage_counterexample :
    billingInputTokens { latency_ms := some 3600000 } = none ∧
    billingOutputTokens { latency_ms := some 3600000 } = none ∧
    (build_billing (fun m => if m = "mistral" then some ⟨1 / 1000000, 0⟩ else none)
        (1 / 20) (some "mistral")
        { latency_ms := some 3600000 } (some 0)).btype = "api_actual_tokens" := by
  refine ⟨rfl, rfl, ?_⟩
  have h := (billing_basis
    (fun m => if m = "mistral" then some ⟨1 / 1000000, 0⟩ else none)
    (1 / 20) "mistral" { latency_ms := some 3600000 } (some 0) rfl (by decide)).1
  rw [h]
  refine ⟨⟨1 / 1000000, 0⟩, by norm_num, Or.inl (by norm_num)⟩

/-- Witness for C7 (amended) at the spec's §8 scenario: all rates zero,
latency 3600000 ms, hourly rate 0.05 → time-based record with
`cost_usd = 0.05`. -/
theorem billing_basis_witness :
    (({ latency_ms := some 3600000 } : Payload).billing = none) ∧
    (build_billing (fun _ => some ⟨0, 0⟩) (1 / 20) (some "mistral")
        { latency_ms := some 3600000 } (some 0)).btype = "estimated_time" ∧
    (build_billing (fun _ => some ⟨0, 0⟩) (1 / 20) (some "mistral")
        { latency_ms := some 3600000 } (some 0)).cost_usd = some (1 / 20) := by
  have h := billing_basis (fun _ => some ⟨0, 0⟩) (1 / 20) "mistral"
    { latency_ms := some 3600000 } (some 0) rfl (by decide)
  have hbE := h.2.2 (fun p hp => by cases Option.some.inj hp; exact ⟨rfl, rfl⟩)
  refine ⟨rfl, by rw [hbE]; rfl, ?_⟩
  rw [hbE]
  show (estimate_cost_time_usd (billingLatency { latency_ms := some 3600000 }) (1 / 20)).map
      pyRound6 = some (1 / 20)
  have hlat : billingLatency { latency_ms := some 3600000 } = some 3600000 := by
    norm_num [billingLatency, pyOrQ]
  rw [hlat]
  show some (pyRound6 ((3600000 : ℚ) / 1000 / 3600 * (1 / 20))) = some (1 / 20)
  have harg : ((3600000 : ℚ)) / 1000 / 3600 * (1 / 20) = 1 / 20 := by norm_num
  rw [harg]
  have hr : pyRound6 (1 / 20) = 1 / 20 := by
    rw [pyRound6]
    have h1 : ((1 : ℚ) / 20 * 1000000) = ((50000 : ℤ) : ℚ) := by norm_num
    rw [h1, Int.floor_intCast]
    norm_num
  rw [hr]

/-! ## `main.py`: the benchmark dispatcher

`run_one` (main.py lines 181–262) is modelled with the adapter
invocation as an externally supplied outcome: `.ok r` is the mapping a
successful `adapter.run`/`run_async` returns (all registered adapters
return mappings), `.error e` an exception with `repr` text `e`; the
elapsed wall-clock milliseconds are likewise an external input.
`sanitize_for_json` is the identity on the values modelled here. -/

/-- Python `dict.setdefault`: fill only when the key is absent (a
present falsy value is kept). -/
def setdefaultS (o : Option String) (d : String) : Option String :=
  match o with
  | none => some d
  | some v => some v

def setdefaultQ (o : Option ℚ) (d : ℚ) : Option ℚ :=
  match o with
  | none => some d
  | some v => some v

/-- `run_one` (main.py lines 181–262): error capture, default merging
and billing attachment.  The error path returns only the five keys of
main.py lines 229–235 (no `text`/`lines`/`billing`). -/
def run_one (model filename mime_type : String) (outcome : Except String Payload)
    (elapsedMs : ℚ) (pricing : String → Option PriceRow) (cpu : ℚ)
    (fileSize : Nat) : Payload :=
  match outcome with
  | .error e =>
    { model := some model, filename := some filename, mime_type := some mime_type,
      error := some e, backend_latency_ms := some elapsedMs }
  | .ok r =>
    let merged : Payload :=
      { r with
        backend_latency_ms := setdefaultQ r.backend_latency_ms elapsedMs,
        model := setdefaultS r.model model,
        filename := setdefaultS r.filename filename,
        mime_type := setdefaultS r.mime_type mime_type }
    { merged with
      billing := some (build_billing pricing cpu (some model) merged (some fileSize)) }

/-- `results[k] = r` on the keyed results dict (main.py lines 270–273):
overwrite an existing key in place, else append. -/
def dictInsert (l : List (String × Payload)) (k : String) (v : Payload) :
    List (String × Payload) :=
  if l.any (fun p => p.1 = k) then l.map (fun p => if p.1 = k then (k, v) else p)
  else l ++ [(k, v)]

/-- `run_benchmark` (main.py lines 166–275): run every configured model
and key the results by each result's `model` field (default
`"unknown"`).  `effName`/`effMime` give the per-model effective filename
and mime type (after the one-shot PDF→PNG conversion of lines 176–191,
which is outside the embedded fragment). -/
def run_benchmark (models : List String) (effName effMime : String → String)
    (outcomes : String → Except String Payload) (elapsed : String → ℚ)
    (pricing : String → Option PriceRow) (cpu : ℚ) (fileSize : Nat) :
    List (String × Payload) :=
  let results_list := models.map
    (fun m => run_one m (effName m) (effMime m) (outcomes m) (elapsed m) pricing cpu fileSize)
  results_list.foldl (fun acc r => dictInsert acc (r.model.getD "unknown") r) []

/-! ## Token extraction: `easyocr_adapter.py` and `paddleocr_adapter.py`

Native detections are `PyVal` trees.  Python's numeric coercions are
modelled where the adapters use them: `int()` parses integer literals
and raises (here: `Except.error`) on anything else; the `float()` call
on a confidence is wrapped in `try/except` by the source, so it is
modelled as an `Option`; numeric-string `float` parsing is not modelled
(no benchmark data path produces one). -/

def parseIntStr (s : String) : Except String ℤ :=
  let t := stripCh s.data
  let signDigits : ℤ × List Char :=
    match t with
    | '-' :: rest => (-1, rest)
    | '+' :: rest => (1, rest)
    | _ => (1, t)
  if signDigits.2 ≠ [] ∧ signDigits.2.all Char.isDigit then
    .ok (signDigits.1 *
      ((signDigits.2.foldl (fun acc c => acc * 10 + (c.toNat - '0'.toNat)) 0 : ℕ) : ℤ))
  else .error ("ValueError: invalid literal for int: " ++ s)

/-- Python `int(x)` (paddleocr_adapter.py line 106): truncating on
numbers, parsing on strings, raising on lists. -/
def pyInt : PyVal → Except String ℤ
  | .num q => .ok (q.num / (q.den : ℤ))
  | .str s => parseIntStr s
  | .list _ => .error "TypeError: int() argument must not be a list"

/-- Python `float(x)` as used under `try/except` for confidences. -/
def pyFloatOpt : PyVal → Option ℚ
  | .num q => some q
  | _ => none

/-- Python `str(x)` as applied to detection text (always a string on
the adapters' data paths). -/
def pyToStr : PyVal → String
  | .str s => s
  | .num q => toString q
  | .list _ => "[...]"

/-- easyocr_adapter.py lines 84–93: `try: xs = [p[0] for p in bbox] ...
except: pass`.  Any failure (empty bbox, short points, non-numeric
entries — where `float()` would raise) yields `none`: the box is
omitted. -/
def easyParseBox (bbox : PyVal) : Option (ℚ × ℚ × ℚ × ℚ) :=
  match bbox with
  | .list ps =>
    if ps.isEmpty then none
    else do
      let xs ← ps.mapM (fun p =>
        match p with
        | .list (x :: _) => pyFloatOpt x
        | _ => none)
      let ys ← ps.mapM (fun p =>
        match p with
        | .list (_ :: y :: _) => pyFloatOpt y
        | _ => none)
      match xs, ys with
      | x0 :: xrest, y0 :: yrest =>
        some (xrest.foldl min x0, yrest.foldl min y0,
              xrest.foldl max x0, yrest.foldl max y0)
      | _, _ => none
  | _ => none

/-- One native EasyOCR detection `(bbox, txt, conf)` (line 76). -/
structure EasyDet where
  bbox : PyVal
  txt : String
  conf : ℚ

/-- easyocr_adapter.py lines 72–93: build `(lines, text_chunks, tokens)`
from the native detections.  Empty/whitespace text drops the detection
entirely; a malformed box keeps the text but yields no token. -/
def easyExtract : List EasyDet → List Line × List String × List Token
  | [] => ([], [], [])
  | d :: rest =>
    let txt := pyStrip d.txt
    if txt = "" then easyExtract rest
    else
      let acc := easyExtract rest
      let line : Line := { text := txt, score := some d.conf, box := some d.bbox }
      match easyParseBox d.bbox with
      | some (x1, y1, x2, y2) =>
        (line :: acc.1, txt :: acc.2.1, ⟨txt, x1, y1, x2, y2⟩ :: acc.2.2)
      | none => (line :: acc.1, txt :: acc.2.1, acc.2.2)

/-- easyocr_adapter.py lines 95–111: the normalized result (no
`line_count` key and no `avg_conf` key are produced). -/
def easyocrResult (dets : List EasyDet) (filename mt : String) (latency : ℚ)
    (raw : PyVal) : Payload :=
  let ext := easyExtract dets
  { model := some "easyocr", filename := some filename, mime_type := some mt,
    backend_latency_ms := some latency, latency_ms := some latency,
    raw := some raw,
    text := some (normalize_to_markdown (pyStrip (pyJoin "\n" ext.2.1)) (some ext.2.2)),
    lines := some ext.1 }

/-- paddleocr_adapter.py lines 101–106: `pts = []; if isinstance(box,
list): for pt in box: if isinstance(pt, (list, tuple)) and len(pt) == 2:
pts.append([int(pt[0]), int(pt[1])])`.  The `int()` calls are NOT under
any `try/except`: a non-numeric entry propagates as an error. -/
def paddleParsePts (box : PyVal) : Except String (List (ℤ × ℤ)) :=
  match box with
  | .list pts =>
    pts.foldlM
      (fun acc pt =>
        match pt with
        | .list [a, b] => do
          let x ← pyInt a
          let y ← pyInt b
          pure (acc ++ [(x, y)])
        | _ => pure acc)
      []
  | _ => .ok []

/-- paddleocr_adapter.py lines 85–133: the per-detection loop.  Returns
`(lines_objs, lines_text, confs, tokens)`; an uncaught exception from
`int()` aborts the whole extraction. -/
def paddleItems : List PyVal → Except String (List Line × List String × List ℚ × List Token)
  | [] => .ok ([], [], [], [])
  | item :: rest =>
    match item with
    | .num q =>
      if q = 0 then paddleItems rest   -- falsy item: `if not item: continue`
      else .error "TypeError: object of type number has no len()"
    | .str _ => paddleItems rest   -- indexing a string never passes the isinstance checks
    | .list l =>
      if l.length < 2 then paddleItems rest
      else
        match l with
        | [] => paddleItems rest
        | [_] => paddleItems rest
        | box :: txt_conf :: _ =>
          match txt_conf with
          | .list (tc0 :: tc1 :: _) => do
            let text := pyStrip (pyToStr tc0)
            let conf := (pyFloatOpt tc1).getD 0
            let pts ← paddleParsePts box
            if text = "" then paddleItems rest
            else do
              let acc ← paddleItems rest
              let lineObj : Line :=
                { text := text, score := some conf,
                  box := if pts.isEmpty then none
                    else some (.list (pts.map (fun p => .list [.num p.1, .num p.2]))) }
              let toks :=
                if pts.isEmpty then acc.2.2.2
                else
                  match pts with
                  | p0 :: prest =>
                    (⟨text, ((prest.map Prod.fst).foldl min p0.1 : ℤ),
                            ((prest.map Prod.snd).foldl min p0.2 : ℤ),
                            ((prest.map Prod.fst).foldl max p0.1 : ℤ),
                            ((prest.map Prod.snd).foldl max p0.2 : ℤ)⟩ : Token) :: acc.2.2.2
                  | [] => acc.2.2.2
              pure (lineObj :: acc.1, text :: acc.2.1, conf :: acc.2.2.1, toks)
          | _ => paddleItems rest   -- `not isinstance(txt_conf, (list, tuple)) or len < 2`

/-- paddleocr_adapter.py lines 81–84: `result[0] if result else []`,
guarded by the `isinstance(page0, list)` check. -/
def paddleDetections (result : List PyVal) : List PyVal :=
  match result with
  | [] => []
  | page0 :: _ =>
    match page0 with
    | .list items => items
    | _ => []

/-- paddleocr_adapter.py lines 135–167: the normalized result; the
engine-specific convenience keys (`latency`, `chars`, `avg_conf`, the
nested `raw`) are outside the modelled field set and not read by the
dispatcher or billing. -/
def paddleocrResult (result : List PyVal) (filename mt : String) (latency : ℚ) :
    Except String Payload :=
  match paddleItems (paddleDetections result) with
  | .error e => .error e
  | .ok ext =>
    .ok { model := some "paddleocr", latency_ms := some latency,
          filename := some filename, mime_type := some mt,
          text := some (normalize_to_markdown (pyStrip (pyJoin "\n" ext.2.1)) (some ext.2.2.2)),
          lines := some ext.1,
          line_count := some ext.1.length }

/-! ## Claim C8: isolation of bad detections -/

/-- A PaddleOCR detection whose box contains a non-numeric point entry
(`[["a", 0], [1, 2], [3, 4], [5, 6]]` with text `"hello"`). -/
def badPaddleItem : PyVal :=
  .list [.list [.list [.str "a", .num 0], .list [.num 1, .num 2],
                .list [.num 3, .num 4], .list [.num 5, .num 6]],
         .list [.str "hello", .num 1]]

/-- A malformed EasyOCR bbox (non-numeric first coordinate). -/
def badEasyBox : PyVal := .list [.list [.str "a", .num 0]]

/-- C8 evidence: PaddleOCR's `int(pt[0])` (line 106) is outside any
`try/except`, so a single detection with a non-numeric box entry makes
the whole extraction — and hence the whole `run()` — raise, instead of
keeping the text and dropping the box; EasyOCR, whose box parsing is
inside `try/except`, keeps the text and omits only the token, and drops
whitespace-only detections entirely. -/
theorem paddle_box_exception :
    paddleItems [badPaddleItem] = .error "ValueError: invalid literal for int: a" ∧
    paddleocrResult [.list [badPaddleItem]] "f.png" "image/png" 5 =
      .error "ValueError: invalid literal for int: a" ∧
    easyExtract [⟨badEasyBox, "hello", 1⟩] =
      ([{ text := "hello", score := some 1, box := some badEasyBox }], ["hello"], []) ∧
    easyExtract [⟨.list [.list [.num 0, .num 0], .list [.num 1, .num 1]], "   ", 1⟩] =
      ([], [], []) := by
  refine ⟨rfl, rfl, rfl, rfl⟩

/-! ## Claim C9: structural completeness of merged results -/

/-- The shape of a successful Mistral adapter result
(mistral_adapter.py lines 144–153): `model`, `filename`, `mime_type`,
latencies, `raw`, `text` and (empty) `lines` — but NO `line_count`. -/
def mistralShapedResult (fn mt : String) (lat : ℚ) (raw : PyVal) (text : String) : Payload :=
  { model := some "mistral", filename := some fn, mime_type := some mt,
    backend_latency_ms := some lat, latency_ms := some lat, raw := some raw,
    text := some text, lines := some [] }

/-- C9 (amended): after the dispatcher's default merging, `model`,
`filename`, `mime_type` and `backend_latency_ms` are always present
(set-defaulted), `text`/`lines`/`line_count` are passed through exactly
as the adapter supplied them (never defaulted), billing is attached; and
the PaddleOCR adapter's `line_count`, when produced, equals the length
of its `lines`. -/
theorem result_structural :
    (∀ (m fn mt : String) (r : Payload) (e : ℚ)
        (pricing : String → Option PriceRow) (cpu : ℚ) (fs : Nat),
      (run_one m fn mt (.ok r) e pricing cpu fs).model = some (r.model.getD m) ∧
      (run_one m fn mt (.ok r) e pricing cpu fs).filename = some (r.filename.getD fn) ∧
      (run_one m fn mt (.ok r) e pricing cpu fs).mime_type = some (r.mime_type.getD mt) ∧
      (run_one m fn mt (.ok r) e pricing cpu fs).backend_latency_ms =
        some (r.backend_latency_ms.getD e) ∧
      (run_one m fn mt (.ok r) e pricing cpu fs).text = r.text ∧
      (run_one m fn mt (.ok r) e pricing cpu fs).lines = r.lines ∧
      (run_one m fn mt (.ok r) e pricing cpu fs).line_count = r.line_count ∧
      (run_one m fn mt (.ok r) e pricing cpu fs).billing.isSome = true) ∧
    (∀ (result : List PyVal) (fn mt : String) (lat : ℚ) (p : Payload),
      paddleocrResult result fn mt lat = .ok p →
      p.line_count = some ((p.lines.getD []).length)) := by
  constructor
  · intro m fn mt r e pricing cpu fs
    refine ⟨?_, ?_, ?_, ?_, rfl, rfl, rfl, rfl⟩
    · cases hm : r.model <;> simp [run_one, setdefaultS, hm]
    · cases hm : r.filename <;> simp [run_one, setdefaultS, hm]
    · cases hm : r.mime_type <;> simp [run_one, setdefaultS, hm]
    · cases hm : r.backend_latency_ms <;> simp [run_one, setdefaultQ, hm]
  · intro result fn mt lat p hp
    rw [paddleocrResult] at hp
    rcases hext : paddleItems (paddleDetections result) with _ | ext
    · rw [hext] at hp; exact Except.noConfusion hp
    · rw [hext] at hp
      obtain rfl : _ = p := Except.ok.inj hp
      rfl

/-- Counterexample for C9 as stated: merging a Mistral-shaped success
result leaves `line_count` absent — the dispatcher never defaults it and
the adapter does not produce it. -/
theorem line_count_missing_counterexample :
    (run_one "mistral" "f.png" "image/png"
      (.ok (mistralShapedResult "f.png" "image/png" 5 (.num 0) "hello"))
      5 (fun _ => none) (1 / 20) 0).line_count = none := rfl

/-- The result PaddleOCR produces on an empty page list. -/
def paddleEmptyResult : Payload :=
  { model := some "paddleocr", latency_ms := some 5,
    filename := some "f.png", mime_type := some "image/png",
    text := some "", lines := some [], line_count := some 0 }

/-- Witness for C9 (amended) at a concrete input: an empty PaddleOCR
page yields a result whose `line_count` is the length of `lines`. -/
theorem result_structural_witness :
    paddleocrResult [] "f.png" "image/png" 5 = .ok paddleEmptyResult ∧
    paddleEmptyResult.line_count = some ((paddleEmptyResult.lines.getD []).length) := by
  refine ⟨rfl, result_structural.2 [] "f.png" "image/png" 5 _ rfl⟩

/-! ## Claim C1: benchmark fan-out -/

/-- Under the registered-adapter invariant (a successful result's
`model` field is either absent or the registry key — true of all seven
registered adapters), a merged entry is keyed by its own engine id. -/
theorem run_one_model_eq (m fn mt : String) (outcome : Except String Payload)
    (e : ℚ) (pricing : String → Option PriceRow) (cpu : ℚ) (fs : Nat)
    (h : ∀ r, outcome = .ok r → r.model = none ∨ r.model = some m) :
    (run_one m fn mt outcome e pricing cpu fs).model = some m := by
  cases outcome with
  | error err => rfl
  | ok r =>
    rcases h r rfl with h0 | h0 <;> simp [run_one, setdefaultS, h0]

/-- Folding `results[k] = r` over results with pairwise-distinct fresh
keys appends each result under its key. -/
theorem foldl_dictInsert_fresh (rs : List Payload) :
    ∀ acc : List (String × Payload),
      (∀ r ∈ rs, ∀ p ∈ acc, p.1 ≠ r.model.getD "unknown") →
      (rs.map (fun r => r.model.getD "unknown")).Nodup →
      rs.foldl (fun acc r => dictInsert acc (r.model.getD "unknown") r) acc =
        acc ++ rs.map (fun r => (r.model.getD "unknown", r)) := by
  induction rs with
  | nil => intro acc _ _; simp
  | cons r rs ih =>
    intro acc hdisj hnd
    obtain ⟨hnotin, hndtl⟩ :
        (∀ x ∈ rs, ¬ x.model.getD "unknown" = r.model.getD "unknown") ∧
          (rs.map (fun r => r.model.getD "unknown")).Nodup := by
      simpa using hnd
    have hfresh : (acc.any (fun p => p.1 = r.model.getD "unknown")) = false := by
      rw [List.any_eq_false]
      intro p hp
      simpa using hdisj r (List.mem_cons_self r rs) p hp
    have hstep : dictInsert acc (r.model.getD "unknown") r =
        acc ++ [(r.model.getD "unknown", r)] := by
      rw [dictInsert, hfresh]
      simp
    rw [List.foldl_cons, hstep,
      ih (acc ++ [(r.model.getD "unknown", r)]) ?_ hndtl]
    · simp
    · intro r' hr' p hp
      rcases List.mem_append.mp hp with hpa | hpk
      · exact hdisj r' (List.mem_cons_of_mem _ hr') p hpa
      · have hpe : p = (r.model.getD "unknown", r) := by simpa using hpk
        subst hpe
        exact fun hc => (hnotin r' hr') hc.symm

/-- Looking up a key in a self-keyed map of distinct keys. -/
theorem lookup_map_self (f : String → Payload) :
    ∀ (models : List String) (m : String), models.Nodup → m ∈ models →
      (models.map (fun m' => (m', f m'))).lookup m = some (f m) := by
  intro models
  induction models with
  | nil => intro m _ hm; cases hm
  | cons a rest ih =>
    intro m hnd hm
    by_cases hma : m = a
    · subst hma
      simp [List.lookup]
    · have hmr : m ∈ rest := by
        rcases List.mem_cons.mp hm with h | h
        · exact absurd h hma
        · exact h
      have : (m == a) = false := beq_eq_false_iff_ne.mpr hma
      simp [List.lookup, this]
      exact ih m (List.nodup_cons.mp hnd).2 hmr

/-- C1: a multi-engine benchmark over distinct configured engines whose
successful results carry their own registry key (or no `model` key)
produces exactly one keyed entry per engine, in registry order; each
engine's entry is exactly `run_one` of that engine's own outcome — so a
raised exception is captured into that engine's entry (with the elapsed
time and no `text`/`lines`) without propagating, and every other
engine's entry is unchanged; successful entries keep the adapter's
`text` and `lines`. -/
theorem benchmark_fanout (models : List String) (effName effMime : String → String)
    (outcomes : String → Except String Payload) (elapsed : String → ℚ)
    (pricing : String → Option PriceRow) (cpu : ℚ) (fileSize : Nat)
    (hnd : models.Nodup)
    (hmodel : ∀ m ∈ models, ∀ r, outcomes m = .ok r → r.model = none ∨ r.model = some m) :
    ((run_benchmark models effName effMime outcomes elapsed pricing cpu fileSize).map
        Prod.fst = models) ∧
    (∀ m ∈ models,
      (run_benchmark models effName effMime outcomes elapsed pricing cpu fileSize).lookup m =
        some (run_one m (effName m) (effMime m) (outcomes m) (elapsed m) pricing cpu fileSize)) ∧
    (∀ m ∈ models, ∀ err, outcomes m = .error err →
      (run_benchmark models effName effMime outcomes elapsed pricing cpu fileSize).lookup m =
        some { model := some m, filename := some (effName m), mime_type := some (effMime m),
               error := some err, backend_latency_ms := some (elapsed m) }) ∧
    (∀ m ∈ models, ∀ r, outcomes m = .ok r →
      ∃ p, (run_benchmark models effName effMime outcomes elapsed pricing cpu fileSize).lookup m
          = some p ∧ p.error = r.error ∧ p.text = r.text ∧ p.lines = r.lines) := by
  set F := fun m => run_one m (effName m) (effMime m) (outcomes m) (elapsed m) pricing cpu fileSize with hF
  have hkey : ∀ m ∈ models, (F m).model = some m := by
    intro m hm
    exact run_one_model_eq m (effName m) (effMime m) (outcomes m) (elapsed m)
      pricing cpu fileSize (hmodel m hm)
  have hkeyD : ∀ m ∈ models, ((F m).model.getD "unknown") = m := by
    intro m hm
    rw [hkey m hm]
    rfl
  have hres : run_benchmark models effName effMime outcomes elapsed pricing cpu fileSize =
      models.map (fun m => (m, F m)) := by
    rw [run_benchmark]
    have hmapkeys : (models.map F).map (fun r => r.model.getD "unknown") = models := by
      rw [List.map_map]
      exact List.map_congr_left hkeyD |>.trans (List.map_id models)
    rw [foldl_dictInsert_fresh (models.map F) [] (by intro _ _ p hp; cases hp)
      (by rw [hmapkeys]; exact hnd)]
    rw [List.nil_append, List.map_map]
    apply List.map_congr_left
    intro m hm
    show ((F m).model.getD "unknown", F m) = (m, F m)
    rw [hkeyD m hm]
  refine ⟨?_, ?_, ?_, ?_⟩
  · rw [hres, List.map_map]
    exact (List.map_congr_left (fun m _ => rfl)).trans (List.map_id models)
  · intro m hm
    rw [hres]
    exact lookup_map_self F models m hnd hm
  · intro m hm err herr
    rw [hres, lookup_map_self F models m hnd hm, hF]
    simp only [herr]
    rfl
  · intro m hm r hok
    refine ⟨F m, by rw [hres]; exact lookup_map_self F models m hnd hm, ?_, ?_, ?_⟩ <;>
      · rw [hF]
        simp only [hok]
        rfl

/-- The spec's fan-out scenario: three configured engines, the middle
one raising on invocation. -/
def exModels : List String := ["easyocr", "mistral", "gemini3"]

def exOutcomes : String → Except String Payload := fun m =>
  if m = "mistral" then .error "RuntimeError('boom')"
  else if m = "easyocr" then
    .ok { model := some "easyocr", text := some "hello", lines := some [] }
  else .ok { text := some "world", lines := some [] }

/-- Witness for C1 at the fan-out scenario: the hypotheses hold for the
three concrete engines (distinct ids; successful results carry their own
id or none) and the theorem applies. -/
theorem benchmark_fanout_witness :
    exModels.Nodup ∧
    (∀ m ∈ exModels, ∀ r, exOutcomes m = .ok r → r.model = none ∨ r.model = some m) ∧
    (((run_benchmark exModels id id exOutcomes (fun _ => 7) (fun _ => none) (1 / 20) 0).map
        Prod.fst = exModels) ∧
     (∀ m ∈ exModels,
       (run_benchmark exModels id id exOutcomes (fun _ => 7) (fun _ => none) (1 / 20) 0).lookup m =
         some (run_one m (id m) (id m) (exOutcomes m) ((fun _ => (7 : ℚ)) m)
           (fun _ => none) (1 / 20) 0)) ∧
     (∀ m ∈ exModels, ∀ err, exOutcomes m = .error err →
       (run_benchmark exModels id id exOutcomes (fun _ => 7) (fun _ => none) (1 / 20) 0).lookup m =
         some { model := some m, filename := some (id m), mime_type := some (id m),
                error := some err, backend_latency_ms := some ((fun _ => (7 : ℚ)) m) }) ∧
     (∀ m ∈ exModels, ∀ r, exOutcomes m = .ok r →
       ∃ p, (run_benchmark exModels id id exOutcomes (fun _ => 7)
            (fun _ => none) (1 / 20) 0).lookup m = some p ∧
         p.error = r.error ∧ p.text = r.text ∧ p.lines = r.lines)) := by
  have hnd : exModels.Nodup := by decide
  have hmodel : ∀ m ∈ exModels, ∀ r, exOutcomes m = .ok r →
      r.model = none ∨ r.model = some m := by
    intro m hm r hr
    rcases (by simpa [exModels] using hm : m = "easyocr" ∨ m = "mistral" ∨ m = "gemini3")
      with rfl | rfl | rfl
    · obtain rfl : _ = r := Except.ok.inj hr
      right
      rfl
    · exact Except.noConfusion hr
    · obtain rfl : _ = r := Except.ok.inj hr
      left
      rfl
  exact ⟨hnd, hmodel,
    benchmark_fanout exModels id id exOutcomes (fun _ => 7) (fun _ => none) (1 / 20) 0 hnd hmodel⟩

/-! ## Text cleanup: the adapters' `_clean_ocr_text` functions -/

/-- The preface phrases shared by the three adapters. -/
def prefaceList : List String :=
  ["here is the extracted text", "extracted text", "ocr output", "output", "result"]

/-- The bare format labels (`junk`). -/
def junkList : List String := ["markdown", "json", "text"]

namespace Gemini3

/-- gemini3_adapter.py lines 26–29: drop the first line of the chosen
middle when it is purely alphabetic (a fence language marker). -/
def firstLineAlphaDrop (middle0 : String) : String :=
  match pySplitlines middle0 with
  | [] => middle0
  | l0 :: rest =>
    if pyIsAlpha (pyStrip l0) then pyStrip (pyJoin "\n" rest) else middle0

/-- gemini3_adapter.py lines 30–52: strip remaining fence markers, drop
short `markdown`/`json`/`text` label lines, then drop leading preface
lines (a `while` loop), join and strip. -/
def afterFence (s : String) : String :=
  let s := pyStrip (pyReplace s "```" "")
  let lines := (pySplitlines s).filterMap (fun ln =>
    let t := pyStrip ln
    if junkList.contains (pyLower t) ∧ t.length ≤ 12 then none
    else some (pyRstrip ln))
  let lines := lines.dropWhile
    (fun ln => prefaceList.contains (pyRstripColon (pyLower (pyStrip ln))))
  pyStrip (pyJoin "\n" lines)

/-- `_clean_ocr_text` (gemini3_adapter.py lines 12–52). -/
def _clean_ocr_text (s0 : String) : String :=
  if s0 = "" then ""
  else if pyContains (pyStrip s0) "```" then
    if 3 ≤ (pySplit (pyStrip s0) "```").length then
      afterFence (firstLineAlphaDrop (pyStrip
        (pyMaxByLen (((pySplit (pyStrip s0) "```").drop 1).dropLast))))
    else afterFence (pyStrip s0)
  else afterFence (pyStrip s0)

end Gemini3

namespace Gemini3Pro

/-- gemini3pro_adapter.py lines 35–39: the language-marker drop here
additionally requires the first line to be short (≤ 12). -/
def middleDrop (middle0 : String) : String :=
  match pySplitlines middle0 with
  | [] => middle0
  | l0 :: rest =>
    if (pyStrip l0).length ≤ 12 ∧ pyIsAlpha (pyStrip l0) then pyStrip (pyJoin "\n" rest)
    else middle0

/-- gemini3pro_adapter.py lines 43–53: one pass of the cleaning loop;
blank lines are kept (as `""`), a preface line is dropped only at index
0, short label lines are dropped anywhere (after lowering and colon
stripping). -/
def keepLine (isFirst : Bool) (ln : String) : Option String :=
  let t := pyStrip ln
  if t = "" then some ""
  else
    let low := pyRstripColon (pyLower t)
    if isFirst ∧ prefaceList.contains low then none
    else if junkList.contains low ∧ t.length ≤ 12 then none
    else some (pyRstrip ln)

def cleanLines (lines : List String) : List String :=
  match lines with
  | [] => []
  | l0 :: rest => (keepLine true l0).toList ++ rest.filterMap (keepLine false)

/-- The working text after the optional fence extraction
(gemini3pro_adapter.py lines 30–40). -/
def extracted (s0 : String) : String :=
  if pyContains (pyStrip s0) "```" then
    if 3 ≤ (pySplit (pyStrip s0) "```").length then
      middleDrop (pyStrip (pyMaxByLen (((pySplit (pyStrip s0) "```").drop 1).dropLast)))
    else pyStrip s0
  else pyStrip s0

/-- `_clean_ocr_text` (gemini3pro_adapter.py lines 11–55).  Note: this
adapter never strips leftover fence markers after extraction. -/
def _clean_ocr_text (s0 : String) : String :=
  if s0 = "" then ""
  else pyStrip (pyJoin "\n" (cleanLines ((pySplitlines (extracted s0)).map pyRstrip)))

end Gemini3Pro

namespace GlmOcr

/-- The fenced-block scan of `re.findall(r"(three backticks)(?:\w+)?\s*
([newline-spanning content, lazy])\s*(three backticks)", s)`
(glmocr_adapter.py line 18): find an opening fence, greedily drop a word
run (the language tag) and following whitespace, then take everything up
to the next fence with trailing whitespace stripped; repeat after the
closing fence.  The fuel `cs.length + 1` suffices (each iteration
consumes at least the opening fence). -/
def findBlocks : Nat → List Char → List (List Char)
  | 0, _ => []
  | fuel + 1, cs =>
    match findSub ("```" : String).data cs with
    | none => []
    | some (_, afterOpen) =>
      match findSub ("```" : String).data
          ((afterOpen.dropWhile isWordChar).dropWhile isPySpace) with
      | none => []
      | some (content, rest) => rstripCh content :: findBlocks fuel rest

/-- `_clean_ocr_text` (glmocr_adapter.py lines 14–40): join the contents
of ALL fenced blocks (non-empty after stripping), strip leftover fences,
then drop blank lines, short label lines and preface lines anywhere. -/
def _clean_ocr_text (s0 : String) : String :=
  let s := pyStrip s0
  let blocks := (findBlocks (s.data.length + 1) s.data).map (fun cs => (⟨cs⟩ : String))
  let s :=
    if blocks ≠ [] then
      pyStrip (pyJoin "\n" ((blocks.map pyStrip).filter (fun b => b ≠ "")))
    else s
  let s := pyStrip (pyReplace s "```" "")
  let lines2 := ((pySplitlines s).map pyRstrip).filterMap (fun ln =>
    let t := pyStrip ln
    if t = "" then none
    else if junkList.contains (pyLower t) ∧ t.length ≤ 12 then none
    else if prefaceList.contains (pyRstripColon (pyLower t)) then none
    else some (pyRstrip ln))
  pyStrip (pyJoin "\n" lines2)

end GlmOcr

/-- Modelled from the spec (§4.2 step 1, for comparison with the code):
"extract the content of the *longest* fenced block (ties broken
arbitrarily)".  The fenced blocks of a text are the odd-indexed
fence-split segments having a closing marker. -/
def fencedBlocks (s : String) : List String :=
  let parts := pySplit s "```"
  ((parts.enum.filter (fun p => p.1 % 2 = 1 ∧ p.1 + 1 < parts.length)).map Prod.snd)

/-- Modelled from the spec: the longest fenced block's content. -/
def specLongestFencedBlock (s : String) : String :=
  pyMaxByLen (fencedBlocks s)

/-! ## Claim C5: fenced-block extraction -/

/-- `max(parts, key=len)` picks a member of maximal length (the first
such member). -/
theorem pyMaxByLen_spec (h : String) (t : List String) :
    pyMaxByLen (h :: t) ∈ h :: t ∧
    ∀ p ∈ h :: t, p.length ≤ (pyMaxByLen (h :: t)).length := by
  have key : ∀ (t : List String) (h : String),
      (t.foldl (fun best p => if best.length < p.length then p else best) h ∈ h :: t) ∧
      (h.length ≤ (t.foldl (fun best p => if best.length < p.length then p else best) h).length) ∧
      (∀ p ∈ t, p.length ≤
        (t.foldl (fun best p => if best.length < p.length then p else best) h).length) := by
    intro t
    induction t with
    | nil =>
      intro h
      exact ⟨List.mem_cons_self h [], le_refl _, fun p hp => absurd hp (List.not_mem_nil p)⟩
    | cons a t ih =>
      intro h
      rw [List.foldl_cons]
      by_cases hc : h.length < a.length
      · rw [if_pos hc]
        obtain ⟨ihmem, ihle, ihall⟩ := ih a
        refine ⟨List.mem_cons_of_mem h ihmem, le_trans (le_of_lt hc) ihle, ?_⟩
        intro p hp
        rcases List.mem_cons.mp hp with rfl | hp2
        · exact ihle
        · exact ihall p hp2
      · rw [if_neg hc]
        obtain ⟨ihmem, ihle, ihall⟩ := ih h
        refine ⟨?_, ihle, ?_⟩
        · rcases List.mem_cons.mp ihmem with he | hm
          · rw [he]
            exact List.mem_cons_self h (a :: t)
          · exact List.mem_cons_of_mem h (List.mem_cons_of_mem a hm)
        · intro p hp
          rcases List.mem_cons.mp hp with rfl | hp2
          · exact le_trans (le_of_not_lt hc) ihle
          · exact ihall p hp2
  obtain ⟨hmem, hle, hall⟩ := key t h
  refine ⟨hmem, fun p hp => ?_⟩
  rcases List.mem_cons.mp hp with rfl | hp2
  · exact hle
  · exact hall p hp2

/-- A fence split with at least two parts means the marker occurs. -/
theorem contains_of_split (s pat : String) (h : 2 ≤ (pySplit s pat).length) :
    pyContains s pat = true := by
  rw [pySplit, List.length_map] at h
  rw [pyContains]
  rcases hf : findSub pat.data s.data with _ | pp
  · rw [splitSubF, hf] at h
    exact absurd h (by norm_num)
  · rfl

/-- C5 (amended): `max(..., key=len)` genuinely selects a longest
element; whenever the (stripped) input splits into at least 3 fence
parts, the gemini3 and gemini3pro cleanups work on the longest segment
strictly between the first and last fence marker — never unconditionally
the first fenced block — while the glm-ocr cleanup joins the contents of
ALL complete fenced blocks (language tags and surrounding whitespace
removed) instead of selecting the longest. -/
theorem clean_longest_segment :
    (∀ (h : String) (t : List String),
      pyMaxByLen (h :: t) ∈ h :: t ∧
      ∀ p ∈ h :: t, p.length ≤ (pyMaxByLen (h :: t)).length) ∧
    (∀ s : String, 3 ≤ (pySplit (pyStrip s) "```").length →
      ((pySplit (pyStrip s) "```").drop 1).dropLast ≠ [] ∧
      Gemini3._clean_ocr_text s =
        Gemini3.afterFence (Gemini3.firstLineAlphaDrop (pyStrip
          (pyMaxByLen (((pySplit (pyStrip s) "```").drop 1).dropLast)))) ∧
      Gemini3Pro.extracted s =
        Gemini3Pro.middleDrop (pyStrip
          (pyMaxByLen (((pySplit (pyStrip s) "```").drop 1).dropLast)))) ∧
    GlmOcr._clean_ocr_text "``` first block```mid``` second second```" =
      "first block\nsecond second" := by
  refine ⟨pyMaxByLen_spec, ?_, by decide⟩
  intro s h
  by_cases hs : s = ""
  · subst hs
    exact absurd h (by decide)
  · have hc : pyContains (pyStrip s) "```" = true :=
      contains_of_split (pyStrip s) "```" (le_trans (by norm_num) h)
    refine ⟨?_, ?_, ?_⟩
    · intro hnil
      have hlen := congrArg List.length hnil
      rw [List.length_dropLast, List.length_drop] at hlen
      simp only [List.length_nil] at hlen
      omega
    · rw [Gemini3._clean_ocr_text, if_neg hs, if_pos hc, if_pos h]
    · rw [Gemini3Pro.extracted, if_pos hc, if_pos h]

/-- Counterexample for C5 as stated: on an input with two complete
fenced blocks, the longest block is `" x y z longer line"`, but the
glm-ocr cleanup's output still contains `alpha beta` from the shorter
block — it joins all blocks instead of extracting the longest. -/
theorem glm_not_longest_counterexample :
    specLongestFencedBlock "``` alpha beta```\n``` x y z longer line```" =
      " x y z longer line" ∧
    GlmOcr._clean_ocr_text "``` alpha beta```\n``` x y z longer line```" =
      "alpha beta\nx y z longer line" ∧
    GlmOcr._clean_ocr_text "``` alpha beta```\n``` x y z longer line```" ≠
      "x y z longer line" := by
  refine ⟨by decide, by decide, by decide⟩

/-- Witness for C5 (amended) at concrete inputs. -/
theorem clean_longest_segment_witness :
    (pyMaxByLen ["a", "bb"] ∈ ["a", "bb"] ∧
      ∀ p ∈ ["a", "bb"], p.length ≤ (pyMaxByLen ["a", "bb"]).length) ∧
    (3 ≤ (pySplit (pyStrip "x```y```z") "```").length) ∧
    (((pySplit (pyStrip "x```y```z") "```").drop 1).dropLast ≠ [] ∧
      Gemini3._clean_ocr_text "x```y```z" =
        Gemini3.afterFence (Gemini3.firstLineAlphaDrop (pyStrip
          (pyMaxByLen (((pySplit (pyStrip "x```y```z") "```").drop 1).dropLast)))) ∧
      Gemini3Pro.extracted "x```y```z" =
        Gemini3Pro.middleDrop (pyStrip
          (pyMaxByLen (((pySplit (pyStrip "x```y```z") "```").drop 1).dropLast)))) := by
  refine ⟨clean_longest_segment.1 "a" ["bb"], by decide,
    clean_longest_segment.2.1 "x```y```z" (by decide)⟩

/-! ## Claim C4: row clustering is invariant under input permutation -/

/-- Two sorted-by-center permutations of each other have identical
center sequences. -/
theorem sorted_perm_map_yc_eq {s1 s2 : List Token} (hp : s1.Perm s2)
    (h1 : List.Sorted leYc s1) (h2 : List.Sorted leYc s2) :
    s1.map ycQ = s2.map ycQ :=
  List.eq_of_perm_of_sorted (hp.map ycQ)
    (List.pairwise_map.mpr h1) (List.pairwise_map.mpr h2)

/-- The greedy walk of `_cluster_rows` produces the same rows (up to
order within each row) on any two sorted inputs with equal center
sequences and permutation-equal combined contents: the walk's decisions
depend only on the center sequence, and a row flush can never separate
tokens of equal center. -/
theorem clusterLoop_perm_rows (tol : ℚ) (htol : 0 ≤ tol) :
    ∀ (s1 s2 cur1 cur2 : List Token) (anchor : ℚ),
      s1.map ycQ = s2.map ycQ →
      (cur1 ++ s1).Perm (cur2 ++ s2) →
      List.Sorted leYc s1 → List.Sorted leYc s2 →
      (∀ x ∈ cur1, ycQ x ≤ anchor + tol) → (∀ x ∈ cur2, ycQ x ≤ anchor + tol) →
      (∀ x ∈ s1, anchor ≤ ycQ x) → (∀ x ∈ s2, anchor ≤ ycQ x) →
      List.Forall₂ (fun r1 r2 => r1.Perm r2)
        (clusterLoop tol anchor cur1 s1) (clusterLoop tol anchor cur2 s2) := by
  intro s1
  induction s1 with
  | nil =>
    intro s2 cur1 cur2 anchor hmap hinv _ _ _ _ _ _
    obtain rfl : s2 = [] := List.map_eq_nil_iff.mp hmap.symm
    simp only [clusterLoop]
    exact List.Forall₂.cons (by simpa using hinv) List.Forall₂.nil
  | cons h1 t1 ih =>
    intro s2 cur1 cur2 anchor hmap hinv hs1 hs2 hb1 hb2 ha1 ha2
    cases s2 with
    | nil => exact absurd hmap (by simp)
    | cons h2 t2 =>
      rw [List.map_cons, List.map_cons] at hmap
      have hyc : ycQ h1 = ycQ h2 := (List.cons.inj hmap).1
      have htl : t1.map ycQ = t2.map ycQ := (List.cons.inj hmap).2
      simp only [clusterLoop]
      rw [show ycQ h2 = ycQ h1 from hyc.symm]
      by_cases hd : |ycQ h1 - anchor| ≤ tol
      · rw [if_pos hd, if_pos hd]
        apply ih t2 (cur1 ++ [h1]) (cur2 ++ [h2]) anchor htl ?_ hs1.of_cons hs2.of_cons
          ?_ ?_ (fun x hx => ha1 x (List.mem_cons_of_mem _ hx))
          (fun x hx => ha2 x (List.mem_cons_of_mem _ hx))
        · simpa [List.append_assoc] using hinv
        · intro x hx
          rcases List.mem_append.mp hx with hx | hx
          · exact hb1 x hx
          · obtain rfl : x = h1 := by simpa using hx
            have := (abs_le.mp hd).2
            linarith
        · intro x hx
          rcases List.mem_append.mp hx with hx | hx
          · exact hb2 x hx
          · obtain rfl : x = h2 := by simpa using hx
            have := (abs_le.mp hd).2
            rw [← hyc]
            linarith
      · rw [if_neg hd, if_neg hd]
        have hgt : tol < ycQ h1 - anchor := by
          have hnn : 0 ≤ ycQ h1 - anchor :=
            sub_nonneg.mpr (ha1 h1 (List.mem_cons_self _ _))
          have := lt_of_not_le hd
          rwa [abs_of_nonneg hnn] at this
        have hout1 : ∀ x ∈ (h1 :: t1 : List Token), ¬ ycQ x ≤ anchor + tol := by
          intro x hx
          have hge : ycQ h1 ≤ ycQ x := by
            rcases List.mem_cons.mp hx with rfl | hx2
            · exact le_refl _
            · exact List.rel_of_sorted_cons hs1 x hx2
          linarith
        have hout2 : ∀ x ∈ (h2 :: t2 : List Token), ¬ ycQ x ≤ anchor + tol := by
          intro x hx
          have hge : ycQ h2 ≤ ycQ x := by
            rcases List.mem_cons.mp hx with rfl | hx2
            · exact le_refl _
            · exact List.rel_of_sorted_cons hs2 x hx2
          rw [← hyc] at hge
          linarith
        have hfil1 : (cur1 ++ h1 :: t1).filter (fun x => decide (ycQ x ≤ anchor + tol)) =
            cur1 := by
          rw [List.filter_append,
            List.filter_eq_self.mpr (fun a ha => decide_eq_true (hb1 a ha)),
            List.filter_eq_nil_iff.mpr
              (fun a ha => by simpa using hout1 a ha),
            List.append_nil]
        have hfil2 : (cur2 ++ h2 :: t2).filter (fun x => decide (ycQ x ≤ anchor + tol)) =
            cur2 := by
          rw [List.filter_append,
            List.filter_eq_self.mpr (fun a ha => decide_eq_true (hb2 a ha)),
            List.filter_eq_nil_iff.mpr
              (fun a ha => by simpa using hout2 a ha),
            List.append_nil]
        have hcur : cur1.Perm cur2 := by
          have := hinv.filter (fun x => decide (ycQ x ≤ anchor + tol))
          rwa [hfil1, hfil2] at this
        have htails : (h1 :: t1).Perm (h2 :: t2) := by
          have h1p : (cur2 ++ h1 :: t1).Perm (cur2 ++ h2 :: t2) :=
            ((hcur.symm.append_right (h1 :: t1)).trans hinv)
          exact (List.perm_append_left_iff cur2).mp h1p
        refine List.Forall₂.cons hcur ?_
        apply ih t2 [h1] [h2] (ycQ h1) htl ?_ hs1.of_cons hs2.of_cons ?_ ?_
          (fun x hx => List.rel_of_sorted_cons hs1 x hx) ?_
        · simpa using htails
        · intro x hx
          obtain rfl : x = h1 := by simpa using hx
          linarith
        · intro x hx
          obtain rfl : x = h2 := by simpa using hx
          rw [← hyc]
          linarith
        · intro x hx
          have hle : ycQ h2 ≤ ycQ x := List.rel_of_sorted_cons hs2 x hx
          rw [← hyc] at hle
          exact hle

/-- Every row the greedy walk emits carries an anchor center: a member
center that is minimal in the row and within tolerance of every member's
center. -/
theorem clusterLoop_anchor (tol : ℚ) (htol : 0 ≤ tol) :
    ∀ (s cur : List Token) (anchor : ℚ),
      List.Sorted leYc s →
      (∀ x ∈ s, anchor ≤ ycQ x) →
      (∀ x ∈ cur, anchor ≤ ycQ x ∧ ycQ x - anchor ≤ tol) →
      anchor ∈ cur.map ycQ →
      ∀ row ∈ clusterLoop tol anchor cur s,
        ∃ a ∈ row.map ycQ, ∀ t ∈ row, a ≤ ycQ t ∧ |ycQ t - a| ≤ tol := by
  intro s
  induction s with
  | nil =>
    intro cur anchor _ _ hcur hmem row hrow
    obtain rfl : row = cur := by simpa [clusterLoop] using hrow
    refine ⟨anchor, hmem, fun t ht => ⟨(hcur t ht).1, ?_⟩⟩
    rw [abs_of_nonneg (sub_nonneg.mpr (hcur t ht).1)]
    exact (hcur t ht).2
  | cons v t ih =>
    intro cur anchor hs hbs hcur hmem row hrow
    simp only [clusterLoop] at hrow
    by_cases hd : |ycQ v - anchor| ≤ tol
    · rw [if_pos hd] at hrow
      apply ih (cur ++ [v]) anchor hs.of_cons
        (fun x hx => hbs x (List.mem_cons_of_mem _ hx)) ?_ ?_ row hrow
      · intro x hx
        rcases List.mem_append.mp hx with hx | hx
        · exact hcur x hx
        · obtain rfl : x = v := by simpa using hx
          exact ⟨hbs _ (List.mem_cons_self _ _), (abs_le.mp hd).2⟩
      · rw [List.map_append]
        exact List.mem_append_left _ hmem
    · rw [if_neg hd] at hrow
      rcases List.mem_cons.mp hrow with rfl | hrow2
      · refine ⟨anchor, hmem, fun t ht => ⟨(hcur t ht).1, ?_⟩⟩
        rw [abs_of_nonneg (sub_nonneg.mpr (hcur t ht).1)]
        exact (hcur t ht).2
      · apply ih [v] (ycQ v) hs.of_cons
          (fun x hx => List.rel_of_sorted_cons hs x hx) ?_ (by simp) row hrow2
        intro x hx
        obtain rfl : x = v := by simpa using hx
        exact ⟨le_refl _, by linarith⟩

/-- Per-row stable sorting preserves pairwise row permutation. -/
theorem forall2_perm_map_sortX :
    ∀ {xs ys : List (List Token)},
      List.Forall₂ (fun r1 r2 => r1.Perm r2) xs ys →
      List.Forall₂ (fun r1 r2 => r1.Perm r2)
        (xs.map (List.insertionSort leX1)) (ys.map (List.insertionSort leX1)) := by
  intro xs ys h
  induction h with
  | nil => exact List.Forall₂.nil
  | cons hab htail ihh =>
    exact List.Forall₂.cons
      ((List.perm_insertionSort leX1 _).trans
        (hab.trans (List.perm_insertionSort leX1 _).symm)) ihh

/-- C4: row clustering is invariant under permutation of the input
tokens — the produced row lists correspond pairwise up to order
(`Forall₂ Perm`, i.e. equal rows as multisets) — and every row's tokens
have vertical centers within the tolerance of the row's anchor (the
minimal center in the row, the first token's center in walk order). -/
theorem cluster_rows_perm_invariant (tol : ℚ) (htol : 0 ≤ tol)
    (l1 l2 : List Token) (hperm : l1.Perm l2) :
    List.Forall₂ (fun r1 r2 => r1.Perm r2) (_cluster_rows l1 tol) (_cluster_rows l2 tol) ∧
    ∀ row ∈ _cluster_rows l1 tol,
      ∃ a ∈ row.map ycQ, ∀ t ∈ row, a ≤ ycQ t ∧ |ycQ t - a| ≤ tol := by
  have hs1 : List.Sorted leYc (List.insertionSort leYc l1) :=
    List.sorted_insertionSort leYc l1
  have hs2 : List.Sorted leYc (List.insertionSort leYc l2) :=
    List.sorted_insertionSort leYc l2
  have hp12 : (List.insertionSort leYc l1).Perm (List.insertionSort leYc l2) :=
    (List.perm_insertionSort leYc l1).trans
      (hperm.trans (List.perm_insertionSort leYc l2).symm)
  have hmap : (List.insertionSort leYc l1).map ycQ =
      (List.insertionSort leYc l2).map ycQ :=
    sorted_perm_map_yc_eq hp12 hs1 hs2
  cases e1 : List.insertionSort leYc l1 with
  | nil =>
    have e2 : List.insertionSort leYc l2 = [] := by
      rw [e1] at hmap
      exact List.map_eq_nil_iff.mp hmap.symm
    have r1 : _cluster_rows l1 tol = [] := by rw [_cluster_rows, e1]
    have r2 : _cluster_rows l2 tol = [] := by rw [_cluster_rows, e2]
    rw [r1, r2]
    exact ⟨List.Forall₂.nil, fun row hrow => absurd hrow (List.not_mem_nil row)⟩
  | cons a t =>
    cases e2 : List.insertionSort leYc l2 with
    | nil =>
      rw [e1, e2] at hmap
      exact absurd hmap (by simp)
    | cons b u =>
      rw [e1] at hs1 hp12
      rw [e2] at hs2 hp12
      rw [e1, e2] at hmap
      rw [List.map_cons, List.map_cons] at hmap
      have hycab : ycQ a = ycQ b := (List.cons.inj hmap).1
      have htlmap : t.map ycQ = u.map ycQ := (List.cons.inj hmap).2
      have hrows1 : _cluster_rows l1 tol =
          (clusterLoop tol (ycQ a) [a] t).map (List.insertionSort leX1) := by
        rw [_cluster_rows, e1]
      have hrows2 : _cluster_rows l2 tol =
          (clusterLoop tol (ycQ b) [b] u).map (List.insertionSort leX1) := by
        rw [_cluster_rows, e2]
      constructor
      · rw [hrows1, hrows2, show ycQ b = ycQ a from hycab.symm]
        have hcore := clusterLoop_perm_rows tol htol t u [a] [b] (ycQ a) htlmap
          (by simpa using hp12) hs1.of_cons hs2.of_cons
          (by
            intro x hx
            obtain rfl : x = a := by simpa using hx
            linarith)
          (by
            intro x hx
            obtain rfl : x = b := by simpa using hx
            rw [← hycab]
            linarith)
          (fun x hx => List.rel_of_sorted_cons hs1 x hx)
          (by
            intro x hx
            have hle : ycQ b ≤ ycQ x := List.rel_of_sorted_cons hs2 x hx
            rw [← hycab] at hle
            exact hle)
        exact forall2_perm_map_sortX hcore
      · intro row hrow
        rw [hrows1] at hrow
        obtain ⟨r, hr, rfl⟩ := List.mem_map.mp hrow
        obtain ⟨aa, haa, hprop⟩ := clusterLoop_anchor tol htol t [a] (ycQ a)
          hs1.of_cons (fun x hx => List.rel_of_sorted_cons hs1 x hx)
          (by
            intro x hx
            obtain rfl : x = a := by simpa using hx
            exact ⟨le_refl _, by linarith⟩)
          (by simp) r hr
        refine ⟨aa, ?_, ?_⟩
        · exact ((List.perm_insertionSort leX1 r).map ycQ).mem_iff.mpr haa
        · intro tk htk
          exact hprop tk ((List.perm_insertionSort leX1 r).mem_iff.mp htk)

/-- Witness for C4: a concrete two-token permutation pair. -/
theorem cluster_rows_perm_invariant_witness :
    (0 : ℚ) ≤ 10 ∧
    ([⟨"a", 0, 0, 2, 2⟩, ⟨"b", 0, 50, 2, 52⟩] : List Token).Perm
      [⟨"b", 0, 50, 2, 52⟩, ⟨"a", 0, 0, 2, 2⟩] ∧
    (List.Forall₂ (fun r1 r2 => r1.Perm r2)
      (_cluster_rows [⟨"a", 0, 0, 2, 2⟩, ⟨"b", 0, 50, 2, 52⟩] 10)
      (_cluster_rows [⟨"b", 0, 50, 2, 52⟩, ⟨"a", 0, 0, 2, 2⟩] 10) ∧
     ∀ row ∈ _cluster_rows [⟨"a", 0, 0, 2, 2⟩, ⟨"b", 0, 50, 2, 52⟩] 10,
       ∃ a ∈ row.map ycQ, ∀ t ∈ row, a ≤ ycQ t ∧ |ycQ t - a| ≤ 10) := by
  have hp : ([⟨"a", 0, 0, 2, 2⟩, ⟨"b", 0, 50, 2, 52⟩] : List Token).Perm
      [⟨"b", 0, 50, 2, 52⟩, ⟨"a", 0, 0, 2, 2⟩] :=
    List.Perm.swap _ _ _
  exact ⟨by norm_num, hp,
    cluster_rows_perm_invariant 10 (by norm_num) _ _ hp⟩

/-! ## Claim C10: shape of a rendered table

`cupP b cs` counts the pipe characters of `cs` not immediately preceded
by a backslash (`b` records whether the character before `cs` was a
backslash); `splitNl` splits a character list at newlines.  These are
the observation functions for the rendering invariant. -/

def cupP : Bool → List Char → Nat
  | _, [] => 0
  | b, c :: rest => (if c = '|' ∧ b = false then 1 else 0) + cupP (c == '\\') rest

/-- Whether the character stream ends in a backslash (starting state
`b`). -/
def endSlash : Bool → List Char → Bool
  | b, [] => b
  | _, c :: rest => endSlash (c == '\\') rest

def splitNl : List Char → List (List Char)
  | [] => [[]]
  | c :: rest =>
    if c = '\n' then [] :: splitNl rest
    else
      match splitNl rest with
      | [] => [[c]]
      | h :: t => (c :: h) :: t

theorem cupP_append : ∀ (xs : List Char) (b : Bool) (ys : List Char),
    cupP b (xs ++ ys) = cupP b xs + cupP (endSlash b xs) ys := by
  intro xs
  induction xs with
  | nil => intro b ys; simp [cupP, endSlash]
  | cons c rest ih =>
    intro b ys
    simp only [List.cons_append, cupP, endSlash]
    rw [show rest.append ys = rest ++ ys from rfl, ih (c == '\\') ys, Nat.add_assoc]

theorem cupP_true_le (cs : List Char) : cupP true cs ≤ cupP false cs := by
  cases cs with
  | nil => exact le_refl _
  | cons c rest =>
    simp only [cupP]
    have h0 : (if c = '|' ∧ true = false then 1 else 0) = 0 := by simp
    rw [h0]
    exact Nat.add_le_add (Nat.zero_le _) (le_refl _)

theorem cupP_eq_zero_all {cs : List Char} (h : cupP false cs = 0) (b : Bool) :
    cupP b cs = 0 := by
  cases b
  · exact h
  · exact Nat.le_zero.mp (h ▸ cupP_true_le cs)

theorem space_not_slash {c : Char} (h : isPySpace c = true) : (c == '\\') = false := by
  by_cases hc : c = '\\'
  · subst hc
    exact absurd h (by decide)
  · exact beq_eq_false_iff_ne.mpr hc

theorem space_not_pipe {c : Char} (h : isPySpace c = true) : c ≠ '|' := by
  intro hc
  subst hc
  exact absurd h (by decide)

theorem cupP_spaces : ∀ (l : List Char), (∀ c ∈ l, isPySpace c = true) →
    ∀ b, cupP b l = 0 := by
  intro l
  induction l with
  | nil => intro _ b; rfl
  | cons c rest ih =>
    intro h b
    have hc := h c (List.mem_cons_self _ _)
    simp only [cupP]
    rw [if_neg (by
      rintro ⟨hp, _⟩
      exact space_not_pipe hc hp)]
    rw [ih (fun x hx => h x (List.mem_cons_of_mem _ hx)) (c == '\\')]

theorem endSlash_spaces : ∀ (l : List Char), (∀ c ∈ l, isPySpace c = true) →
    endSlash false l = false := by
  intro l
  induction l with
  | nil => intro _; rfl
  | cons c rest ih =>
    intro h
    simp only [endSlash]
    rw [space_not_slash (h c (List.mem_cons_self _ _))]
    exact ih (fun x hx => h x (List.mem_cons_of_mem _ hx))

theorem stripCh_decomp (cs : List Char) :
    ∃ pre post, cs = pre ++ (stripCh cs ++ post) ∧
      (∀ c ∈ pre, isPySpace c = true) ∧ (∀ c ∈ post, isPySpace c = true) := by
  refine ⟨cs.takeWhile isPySpace,
    ((cs.dropWhile isPySpace).reverse.takeWhile isPySpace).reverse, ?_, ?_, ?_⟩
  · have h1 : cs = cs.takeWhile isPySpace ++ cs.dropWhile isPySpace :=
      (List.takeWhile_append_dropWhile isPySpace cs).symm
    have h2 : cs.dropWhile isPySpace =
        stripCh cs ++ ((cs.dropWhile isPySpace).reverse.takeWhile isPySpace).reverse := by
      have h3 : (cs.dropWhile isPySpace).reverse =
          (cs.dropWhile isPySpace).reverse.takeWhile isPySpace ++
            (cs.dropWhile isPySpace).reverse.dropWhile isPySpace :=
        (List.takeWhile_append_dropWhile isPySpace (cs.dropWhile isPySpace).reverse).symm
      calc cs.dropWhile isPySpace = (cs.dropWhile isPySpace).reverse.reverse := by
            rw [List.reverse_reverse]
        _ = ((cs.dropWhile isPySpace).reverse.takeWhile isPySpace ++
              (cs.dropWhile isPySpace).reverse.dropWhile isPySpace).reverse := by
            rw [← h3]
        _ = stripCh cs ++
              ((cs.dropWhile isPySpace).reverse.takeWhile isPySpace).reverse := by
            rw [List.reverse_append]
            rfl
    rw [← h2, ← h1]
  · intro c hc
    exact List.mem_takeWhile_imp hc
  · intro c hc
    exact List.mem_takeWhile_imp (List.mem_reverse.mp hc)

theorem cupP_strip_zero {cs : List Char} (h : cupP false cs = 0) (b : Bool) :
    cupP b (stripCh cs) = 0 := by
  obtain ⟨pre, post, heq, hpre, hpost⟩ := stripCh_decomp cs
  have h2 : cupP false (pre ++ (stripCh cs ++ post)) = 0 := by
    rw [← heq]; exact h
  rw [cupP_append, cupP_spaces pre hpre, endSlash_spaces pre hpre, Nat.zero_add,
    cupP_append] at h2
  exact cupP_eq_zero_all (Nat.eq_zero_of_add_eq_zero_right h2) b

theorem replaceChar_cons (old : Char) (new : List Char) (c : Char) (rest : List Char) :
    replaceChar old new (c :: rest) =
      (if c = old then new else [c]) ++ replaceChar old new rest := by
  simp [replaceChar]

theorem cupP_escape_pipe : ∀ (cs : List Char) (b : Bool),
    cupP b (replaceChar '|' ['\\', '|'] cs) = 0 := by
  intro cs
  induction cs with
  | nil => intro b; rfl
  | cons c rest ih =>
    intro b
    rw [replaceChar_cons]
    by_cases hc : c = '|'
    · rw [if_pos hc, cupP_append]
      have h1 : cupP b ['\\', '|'] = 0 := by cases b <;> rfl
      have h2 : endSlash b ['\\', '|'] = false := by cases b <;> rfl
      rw [h1, h2, Nat.zero_add]
      exact ih false
    · rw [if_neg hc, cupP_append]
      have h1 : cupP b [c] = 0 := by simp [cupP, hc]
      rw [h1, Nat.zero_add]
      exact ih _

theorem cupP_md_escape (s : String) : ∀ b, cupP b (md_escape s).data = 0 := by
  intro b
  show cupP b (stripCh (replaceChar '|' ['\\', '|'] (replaceChar '\n' [' '] s.data))) = 0
  exact cupP_strip_zero (cupP_escape_pipe _ false) b

theorem nl_not_mem_replaceNl (cs : List Char) : '\n' ∉ replaceChar '\n' [' '] cs := by
  intro h
  simp only [replaceChar, List.mem_flatMap] at h
  obtain ⟨c, hcmem, hc⟩ := h
  by_cases h2 : c = '\n'
  · rw [if_pos h2] at hc
    exact absurd hc (by decide)
  · rw [if_neg h2] at hc
    rw [List.mem_singleton] at hc
    exact h2 (by rw [← hc])

theorem nl_not_mem_escape {cs : List Char} (h : '\n' ∉ cs) :
    '\n' ∉ replaceChar '|' ['\\', '|'] cs := by
  intro hm
  simp only [replaceChar, List.mem_flatMap] at hm
  obtain ⟨c, hcmem, hc⟩ := hm
  by_cases h2 : c = '|'
  · rw [if_pos h2] at hc
    exact absurd hc (by decide)
  · rw [if_neg h2] at hc
    rw [List.mem_singleton] at hc
    exact h (by rw [hc]; exact hcmem)

theorem mem_stripCh {x : Char} {cs : List Char} (h : x ∈ stripCh cs) : x ∈ cs := by
  have h1 : x ∈ (cs.dropWhile isPySpace).reverse.dropWhile isPySpace :=
    List.mem_reverse.mp h
  have h2 : x ∈ (cs.dropWhile isPySpace).reverse :=
    (List.dropWhile_sublist _).subset h1
  exact (List.dropWhile_sublist _).subset (List.mem_reverse.mp h2)

theorem nl_not_mem_md_escape (s : String) : '\n' ∉ (md_escape s).data := by
  show '\n' ∉ stripCh (replaceChar '|' ['\\', '|'] (replaceChar '\n' [' '] s.data))
  intro hm
  exact nl_not_mem_escape (nl_not_mem_replaceNl s.data) (mem_stripCh hm)

theorem mem_joinSepCh {x : Char} {sep : List Char} :
    ∀ {ls : List (List Char)}, x ∈ joinSepCh sep ls → x ∈ sep ∨ ∃ l ∈ ls, x ∈ l := by
  intro ls
  induction ls with
  | nil => intro h; exact absurd h (List.not_mem_nil _)
  | cons a tail ih =>
    intro h
    cases tail with
    | nil => exact Or.inr ⟨a, List.mem_cons_self _ _, h⟩
    | cons b xs =>
      rcases List.mem_append.mp h with h1 | h1
      · rcases List.mem_append.mp h1 with h2 | h2
        · exact Or.inr ⟨a, List.mem_cons_self _ _, h2⟩
        · exact Or.inl h2
      · rcases ih h1 with h2 | ⟨l, hl, hx⟩
        · exact Or.inl h2
        · exact Or.inr ⟨l, List.mem_cons_of_mem _ hl, hx⟩

theorem nl_not_mem_mdLine {cells : List String}
    (h : ∀ c ∈ cells, '\n' ∉ c.data) : '\n' ∉ (mdLine cells).data := by
  intro hm
  have hm2 : '\n' ∈ (['|', ' '] ++ joinSepCh [' ', '|', ' '] (cells.map String.data))
      ++ [' ', '|'] := hm
  rcases List.mem_append.mp hm2 with h1 | h1
  · rcases List.mem_append.mp h1 with h2 | h2
    · exact absurd h2 (by decide)
    · rcases mem_joinSepCh h2 with h3 | ⟨l, hl, hx⟩
      · exact absurd h3 (by decide)
      · obtain ⟨c, hc, rfl⟩ := List.mem_map.mp hl
        exact h c hc hx
  · exact absurd h1 (by decide)

theorem cupP_joinSep : ∀ (ls : List (List Char)),
    (∀ l ∈ ls, ∀ b, cupP b l = 0) →
    ∀ b, cupP b (joinSepCh [' ', '|', ' '] ls) = ls.length - 1 := by
  intro ls
  induction ls with
  | nil => intro _ b; rfl
  | cons x tail ih =>
    intro h b
    cases tail with
    | nil =>
      show cupP b x = [x].length - 1
      rw [h x (List.mem_cons_self _ _) b]
      rfl
    | cons y xs =>
      simp only [joinSepCh]
      rw [List.append_assoc, cupP_append, h x (List.mem_cons_self _ _) b, Nat.zero_add,
        cupP_append]
      have h1 : cupP (endSlash b x) [' ', '|', ' '] = 1 := by
        cases endSlash b x <;> rfl
      have h2 : endSlash (endSlash b x) [' ', '|', ' '] = false := by
        cases endSlash b x <;> rfl
      rw [h1, h2, ih (fun l hl => h l (List.mem_cons_of_mem _ hl)) false]
      simp only [List.length_cons]
      omega

theorem cupP_mdLine (cells : List String) (hne : cells ≠ [])
    (h : ∀ c ∈ cells, ∀ b, cupP b c.data = 0) :
    cupP false (mdLine cells).data = cells.length + 1 := by
  have hd : (mdLine cells).data =
      ['|', ' '] ++ (joinSepCh [' ', '|', ' '] (cells.map String.data) ++ [' ', '|']) :=
    rfl
  rw [hd, cupP_append]
  have h1 : cupP false ['|', ' '] = 1 := rfl
  have h2 : endSlash false ['|', ' '] = false := rfl
  rw [h1, h2, cupP_append]
  have h3 : ∀ l ∈ cells.map String.data, ∀ b, cupP b l = 0 := by
    intro l hl b
    obtain ⟨c, hc, rfl⟩ := List.mem_map.mp hl
    exact h c hc b
  rw [cupP_joinSep _ h3 false]
  have h4 : ∀ e, cupP e [' ', '|'] = 1 := by intro e; cases e <;> rfl
  rw [h4]
  have h5 : cells.length ≠ 0 := fun h0 => hne (List.length_eq_zero.mp h0)
  have h6 : (cells.map String.data).length = cells.length := List.length_map _ _
  omega

theorem splitNl_no_nl : ∀ {x : List Char}, '\n' ∉ x → splitNl x = [x] := by
  intro x
  induction x with
  | nil => intro _; rfl
  | cons c rest ih =>
    intro h
    have hc : c ≠ '\n' := fun hc => h (hc ▸ List.mem_cons_self _ _)
    have hr : '\n' ∉ rest := fun hm => h (List.mem_cons_of_mem _ hm)
    simp only [splitNl, if_neg hc, ih hr]

theorem splitNl_append_nl : ∀ (x : List Char), '\n' ∉ x →
    ∀ (r : List Char), splitNl (x ++ '\n' :: r) = x :: splitNl r := by
  intro x
  induction x with
  | nil =>
    intro _ r
    show splitNl ('\n' :: r) = [] :: splitNl r
    simp [splitNl]
  | cons c rest ih =>
    intro h r
    have hc : c ≠ '\n' := fun hc => h (hc ▸ List.mem_cons_self _ _)
    have hr : '\n' ∉ rest := fun hm => h (List.mem_cons_of_mem _ hm)
    show splitNl (c :: (rest ++ '\n' :: r)) = (c :: rest) :: splitNl r
    simp only [splitNl, if_neg hc, ih hr r]

theorem splitNl_join : ∀ (ls : List (List Char)), ls ≠ [] →
    (∀ l ∈ ls, '\n' ∉ l) → splitNl (joinSepCh ['\n'] ls) = ls := by
  intro ls
  induction ls with
  | nil => intro h _; exact absurd rfl h
  | cons x tail ih =>
    intro _ h
    cases tail with
    | nil =>
      show splitNl x = [x]
      exact splitNl_no_nl (h x (List.mem_cons_self _ _))
    | cons y xs =>
      simp only [joinSepCh]
      rw [List.append_assoc, List.singleton_append,
        splitNl_append_nl x (h x (List.mem_cons_self _ _)),
        ih (by simp) (fun l hl => h l (List.mem_cons_of_mem _ hl))]

theorem map_const_replicate (l : List String) (b : String) :
    l.map (fun _ => b) = List.replicate l.length b := by
  induction l with
  | nil => rfl
  | cons x xs ih => simp [List.replicate, ih]

theorem updCell_length (cells : List String) (j : Nat) (txt : String) :
    (updCell cells j txt).length = cells.length := by
  rw [updCell]
  split <;> rw [List.length_set]

theorem assign_foldl_length (c0 : ℚ) (cs : List ℚ) : ∀ (row : List Token)
    (init : List String),
    (row.foldl (fun cells t => updCell cells (argminDist c0 cs (xcQ t)) t.text)
      init).length = init.length := by
  intro row
  induction row with
  | nil => intro init; rfl
  | cons t rest ih =>
    intro init
    rw [List.foldl_cons, ih, updCell_length]

theorem assign_length (row : List Token) (col_centers : List ℚ) (h : col_centers ≠ []) :
    (_assign_to_columns row col_centers).length = col_centers.length := by
  cases col_centers with
  | nil => exact absurd rfl h
  | cons c0 cs =>
    simp only [_assign_to_columns, List.length_map, assign_foldl_length,
      List.length_replicate]

theorem fst_mem_enumFrom_lt : ∀ (l : List String) (n : Nat) (p : Nat × String),
    p ∈ l.enumFrom n → p.1 < n + l.length := by
  intro l
  induction l with
  | nil => intro n p hp; exact absurd hp (List.not_mem_nil _)
  | cons x rest ih =>
    intro n p hp
    rcases List.mem_cons.mp hp with h | h
    · subst h
      simp only [List.length_cons]
      omega
    · have := ih (n + 1) p h
      simp only [List.length_cons]
      omega

theorem foldl_maxUsed_le (L : Nat) :
    ∀ (l : List (Nat × String)) (m : Nat), m ≤ L → (∀ p ∈ l, p.1 + 1 ≤ L) →
      l.foldl (fun m' p => if p.2 ≠ "" then max m' (p.1 + 1) else m') m ≤ L := by
  intro l
  induction l with
  | nil => intro m hm _; exact hm
  | cons p rest ih =>
    intro m hm hp
    rw [List.foldl_cons]
    apply ih
    · by_cases h : p.2 ≠ ""
      · rw [if_pos h]
        exact max_le hm (hp p (List.mem_cons_self _ _))
      · rw [if_neg h]
        exact hm
    · intro q hq
      exact hp q (List.mem_cons_of_mem _ hq)

theorem maxUsedCols_le (grid : List (List String)) (L : Nat)
    (h : ∀ r ∈ grid, r.length ≤ L) : maxUsedCols grid ≤ L := by
  rw [maxUsedCols]
  have key : ∀ (g : List (List String)) (m : Nat), m ≤ L → (∀ r ∈ g, r.length ≤ L) →
      g.foldl
        (fun m r => (r.enum).foldl
          (fun m' p => if p.2 ≠ "" then max m' (p.1 + 1) else m') m)
        m ≤ L := by
    intro g
    induction g with
    | nil => intro m hm _; exact hm
    | cons r rest ih =>
      intro m hm hr
      rw [List.foldl_cons]
      apply ih
      · apply foldl_maxUsed_le
        · exact hm
        · intro p hp
          have h1 := fst_mem_enumFrom_lt r 0 p hp
          have h2 := hr r (List.mem_cons_self _ _)
          omega
      · intro q hq
        exact hr q (List.mem_cons_of_mem _ hq)
  exact key grid 0 (Nat.zero_le _) h

theorem infer_columns_le (rows : List (List Token)) (k : Nat) :
    (_infer_columns rows k).length ≤ k := by
  simp only [_infer_columns]
  split
  · exact Nat.zero_le k
  · exact List.length_take_le _ _

theorem tableGrid_row_length (tokens : List Token)
    (h : _infer_columns (_cluster_rows tokens 10) 8 ≠ [])
    (r : List String) (hr : r ∈ tableGrid tokens) :
    r.length = (_infer_columns (_cluster_rows tokens 10) 8).length := by
  rw [tableGrid] at hr
  obtain ⟨row, _, rfl⟩ := List.mem_map.mp hr
  exact assign_length row _ h

theorem tableMaxUsed_le (tokens : List Token)
    (h : _infer_columns (_cluster_rows tokens 10) 8 ≠ []) :
    tableMaxUsed tokens ≤ (_infer_columns (_cluster_rows tokens 10) 8).length := by
  rw [tableMaxUsed]
  apply maxUsedCols_le
  intro r hr
  exact le_of_eq (tableGrid_row_length tokens h r hr)

theorem tableMaxUsed_le_one_of_no_cols (tokens : List Token)
    (h : _infer_columns (_cluster_rows tokens 10) 8 = []) :
    tableMaxUsed tokens ≤ 1 := by
  rw [tableMaxUsed]
  apply maxUsedCols_le
  intro r hr
  rw [tableGrid] at hr
  obtain ⟨row, _, rfl⟩ := List.mem_map.mp hr
  rw [h]
  exact Nat.le_refl 1

/-- C10: whenever `tokens_to_markdown_table` returns a non-empty string,
the rendered markdown splits at newlines into exactly the intended lines
(header, `---` separator, body rows — at least 3 lines, so no cell leaks
a newline into the output), the populated column count `tableMaxUsed` is
strictly greater than 1 and at most 8, every line carries exactly
`tableMaxUsed + 1` unescaped `|` characters (the cell delimiters — every
cell contributes zero unescaped pipes and zero newlines), and the second
line is the separator row of `---` cells of that same width. -/
theorem table_render_shape (tokens : List Token)
    (h : tokens_to_markdown_table tokens ≠ "") :
    1 < tableMaxUsed tokens ∧ tableMaxUsed tokens ≤ 8 ∧
    splitNl (tokens_to_markdown_table tokens).data =
      (tableMd tokens).map String.data ∧
    3 ≤ (tableMd tokens).length ∧
    (∀ line ∈ (tableMd tokens).map String.data,
      cupP false line = tableMaxUsed tokens + 1) ∧
    ((tableMd tokens).map String.data).get? 1 =
      some (mdLine (List.replicate (tableMaxUsed tokens) "---")).data := by
  by_cases h1 : (_cluster_rows tokens 10).length < 2
  · exact absurd (by rw [tokens_to_markdown_table, if_pos h1]) h
  by_cases h2 : tableMaxUsed tokens ≤ 1
  · exact absurd (by rw [tokens_to_markdown_table, if_neg h1, if_pos h2]) h
  have hres : tokens_to_markdown_table tokens = pyJoin "\n" (tableMd tokens) := by
    rw [tokens_to_markdown_table, if_neg h1, if_neg h2]
  have hmu : 1 < tableMaxUsed tokens := Nat.lt_of_not_le h2
  have hcols : _infer_columns (_cluster_rows tokens 10) 8 ≠ [] := by
    intro hc
    exact h2 (tableMaxUsed_le_one_of_no_cols tokens hc)
  have hmu8 : tableMaxUsed tokens ≤ 8 :=
    le_trans (tableMaxUsed_le tokens hcols) (infer_columns_le _ 8)
  have hg2len : ∀ r ∈ tableGrid2 tokens, r.length = tableMaxUsed tokens := by
    intro r hr
    rw [tableGrid2] at hr
    obtain ⟨r0, hr0, rfl⟩ := List.mem_map.mp hr
    rw [List.length_take, tableGrid_row_length tokens hcols r0 hr0]
    exact min_eq_left (tableMaxUsed_le tokens hcols)
  have hg2l : 2 ≤ (tableGrid2 tokens).length := by
    rw [tableGrid2, List.length_map, tableGrid, List.length_map]
    omega
  have hg2ne : tableGrid2 tokens ≠ [] := by
    intro h0
    rw [h0] at hg2l
    exact absurd hg2l (by decide)
  have hh0 : tableHeader0 tokens ∈ tableGrid2 tokens := by
    rw [tableHeader0]
    cases hg : tableGrid2 tokens with
    | nil => exact absurd hg hg2ne
    | cons a t => exact List.mem_cons_self _ _
  have hh0len : (tableHeader0 tokens).length = tableMaxUsed tokens :=
    hg2len _ hh0
  have hhlen : (tableHeader tokens).length = tableMaxUsed tokens := by
    rw [tableHeader]
    split
    · rw [List.length_map, List.length_range, hh0len]
    · exact hh0len
  have hblen : ∀ r ∈ tableBody tokens, r.length = tableMaxUsed tokens := by
    intro r hr
    rw [tableBody] at hr
    split at hr
    · exact hg2len r hr
    · exact hg2len r (List.mem_of_mem_tail hr)
  have hbodyl : 1 ≤ (tableBody tokens).length := by
    rw [tableBody]
    split
    · omega
    · rw [List.length_tail]
      omega
  have hmdlines : ∀ s ∈ tableMd tokens, ∃ cells : List String,
      s = mdLine cells ∧ cells.length = tableMaxUsed tokens ∧
      (∀ c ∈ cells, ∀ b, cupP b c.data = 0) ∧ (∀ c ∈ cells, '\n' ∉ c.data) := by
    intro s hs
    rw [tableMd] at hs
    rcases List.mem_cons.mp hs with rfl | hs
    · refine ⟨(tableHeader tokens).map md_escape, rfl, ?_, ?_, ?_⟩
      · rw [List.length_map, hhlen]
      · intro c hc
        obtain ⟨c0, _, rfl⟩ := List.mem_map.mp hc
        exact cupP_md_escape c0
      · intro c hc
        obtain ⟨c0, _, rfl⟩ := List.mem_map.mp hc
        exact nl_not_mem_md_escape c0
    rcases List.mem_cons.mp hs with rfl | hs
    · refine ⟨(tableHeader tokens).map (fun _ => "---"), rfl, ?_, ?_, ?_⟩
      · rw [List.length_map, hhlen]
      · intro c hc
        obtain ⟨c0, _, rfl⟩ := List.mem_map.mp hc
        intro b
        cases b <;> rfl
      · intro c hc
        obtain ⟨c0, _, rfl⟩ := List.mem_map.mp hc
        decide
    · obtain ⟨r, hr, rfl⟩ := List.mem_map.mp hs
      refine ⟨r.map md_escape, rfl, ?_, ?_, ?_⟩
      · rw [List.length_map, hblen r hr]
      · intro c hc
        obtain ⟨c0, _, rfl⟩ := List.mem_map.mp hc
        exact cupP_md_escape c0
      · intro c hc
        obtain ⟨c0, _, rfl⟩ := List.mem_map.mp hc
        exact nl_not_mem_md_escape c0
  have hmdne : tableMd tokens ≠ [] := by
    rw [tableMd]
    exact List.cons_ne_nil _ _
  have hline_nl : ∀ l ∈ (tableMd tokens).map String.data, '\n' ∉ l := by
    intro l hl
    obtain ⟨s, hs, rfl⟩ := List.mem_map.mp hl
    obtain ⟨cells, rfl, _, _, hnl⟩ := hmdlines s hs
    exact nl_not_mem_mdLine hnl
  have hsplit : splitNl (tokens_to_markdown_table tokens).data =
      (tableMd tokens).map String.data := by
    rw [hres]
    show splitNl (joinSepCh ['\n'] ((tableMd tokens).map String.data)) = _
    exact splitNl_join _ (fun h0 => hmdne (List.map_eq_nil_iff.mp h0)) hline_nl
  have hcup : ∀ line ∈ (tableMd tokens).map String.data,
      cupP false line = tableMaxUsed tokens + 1 := by
    intro line hl
    obtain ⟨s, hs, rfl⟩ := List.mem_map.mp hl
    obtain ⟨cells, rfl, hlen, hgood, _⟩ := hmdlines s hs
    have hne2 : cells ≠ [] := by
      intro h0
      rw [h0] at hlen
      exact absurd hlen.symm (Nat.ne_of_gt (lt_trans Nat.zero_lt_one hmu))
    rw [cupP_mdLine cells hne2 hgood, hlen]
  have h3 : 3 ≤ (tableMd tokens).length := by
    rw [tableMd]
    simp only [List.length_cons, List.length_map]
    omega
  have hget : ((tableMd tokens).map String.data).get? 1 =
      some (mdLine (List.replicate (tableMaxUsed tokens) "---")).data := by
    have hstep : ((tableMd tokens).map String.data).get? 1 =
        some (mdLine ((tableHeader tokens).map (fun _ => "---"))).data := by
      rw [tableMd]
      rfl
    rw [hstep, map_const_replicate, hhlen]
  exact ⟨hmu, hmu8, hsplit, h3, hcup, hget⟩

set_option maxHeartbeats 2000000 in
/-- Witness for C10: the §8 table scenario renders a non-empty table, so
the rendering-shape invariant holds there. -/
theorem table_render_shape_witness :
    tokens_to_markdown_table tableScenarioTokens ≠ "" ∧
    (1 < tableMaxUsed tableScenarioTokens ∧ tableMaxUsed tableScenarioTokens ≤ 8 ∧
     splitNl (tokens_to_markdown_table tableScenarioTokens).data =
       (tableMd tableScenarioTokens).map String.data ∧
     3 ≤ (tableMd tableScenarioTokens).length ∧
     (∀ line ∈ (tableMd tableScenarioTokens).map String.data,
       cupP false line = tableMaxUsed tableScenarioTokens + 1) ∧
     ((tableMd tableScenarioTokens).map String.data).get? 1 =
       some (mdLine (List.replicate (tableMaxUsed tableScenarioTokens) "---")).data) := by
  have hne : tokens_to_markdown_table tableScenarioTokens ≠ "" := by
    have hv : tokens_to_markdown_table tableScenarioTokens =
        "| Name | Qty |\n| --- | --- |\n| Pen | 3 |" := by
      norm_num [tableScenarioTokens, tokens_to_markdown_table, tableGrid,
        tableMaxUsed, tableGrid2, tableHeader0, tableGeneric, tableHeader,
        tableBody, tableMd, _cluster_rows,
        List.insertionSort, List.orderedInsert, leYc, leX1, ycQ, xcQ, clusterLoop,
        _infer_columns, colsLoop, _assign_to_columns, argminDist, updCell,
        maxUsedCols, md_escape, mdLine, pyJoin, joinSepCh, pyStrip,
        PyStr.stripCh, PyStr.replaceChar, PyStr.isPySpace]
      rfl
    rw [hv]
    decide
  exact ⟨hne, table_render_shape tableScenarioTokens hne⟩
